import Mathlib

/-!
Verification of the `timespec` package (`src/timespec/__init__.py`).

The development shallowly embeds the module in Lean:

* Python `datetime.date` / `datetime.time` / `datetime.datetime` values become
  the structures `Date`, `Time`, `DateTime` below.  Timezones are modelled as
  fixed utc offsets in minutes (`pytz.utc` is offset `0`); `tzinfo` of a time
  or datetime is `Option Int` (`none` = naive).  This matches the spec, which
  treats the timezone capability as an opaque "attach / read back an offset".
* Calendar arithmetic (`timedelta(days=1)` steps, `date.weekday()`, epoch
  conversion) is the host platform's in the source; here it is implemented
  with the standard civil-calendar algorithms (`toDays` / `fromDays`) and a
  day-rollover successor (`nextDate` / `prevDate`), which agree with it.
* Exceptions become the `PyErr` error type of an `Except PyErr` computation.
  `next()` on an exhausted generator is `PyErr.stopIteration`; Python `%` by
  zero is `PyErr.zeroDivisionError`; `assert` failure is
  `PyErr.assertionError`.
* Tokens are Python strings; all classification works on their character
  lists (`String.toList`) with hand-rolled `splitOnChar`, `pyInt`, etc.
  `pyInt` models `int(str)` for an optional sign followed by decimal digits
  (the underscore/whitespace forms of the builtin are not exercised here).
* The nine predicate buckets are deep-embedded (`IntPred`, `DatePred`,
  `TimePred`, `DateTimePred`) with explicit evaluation functions.  The source
  builds the year/month/day predicates of an ISO-date token as closures over
  the loop variable `date`; since every predicate is invoked only after the
  token loop has finished, the observable Python semantics is that those
  predicates compare against the *final* value of `date`.  This is captured
  by the constructors `IntPred.isoYear` / `isoMonth` / `isoDay`, which are
  evaluated against the last successfully parsed ISO date (`Buckets.lastIso`).
-/

/-- A calendar date, mirroring `datetime.date` (fields as Python ints). -/
structure Date where
  year : Int
  month : Int
  day : Int
deriving DecidableEq

/-- A time of day with optional fixed-offset tzinfo (minutes east of UTC),
mirroring `datetime.time`. -/
structure Time where
  hour : Int
  minute : Int
  second : Int
  micro : Int
  tz : Option Int
deriving DecidableEq

/-- An (optionally aware) datetime, mirroring `datetime.datetime`.  Its
`timetz()` is the `time` field (which carries the tzinfo), its `date()` is the
`date` field. -/
structure DateTime where
  date : Date
  time : Time
deriving DecidableEq

/-- The Python exceptions the module can raise. -/
inductive PyErr where
  | valueError (msg : String)
  | stopIteration
  | typeError
  | zeroDivisionError
  | assertionError
deriving DecidableEq

/-- `True` for leap years, as `calendar`/`datetime` define them. -/
def isLeap (y : Int) : Bool :=
  Int.emod y 4 == 0 && (Int.emod y 100 != 0 || Int.emod y 400 == 0)

/-- Number of days of month `m` in year `y` (for `1 ≤ m ≤ 12`). -/
def daysInMonth (y m : Int) : Int :=
  if m == 2 then (if isLeap y then 29 else 28)
  else if m == 4 || m == 6 || m == 9 || m == 11 then 30
  else 31

/-- Validity predicate of a `datetime.date` value. -/
def Date.Valid (d : Date) : Prop :=
  1 ≤ d.year ∧ d.year ≤ 9999 ∧ 1 ≤ d.month ∧ d.month ≤ 12 ∧
    1 ≤ d.day ∧ d.day ≤ daysInMonth d.year d.month

instance (d : Date) : Decidable d.Valid := by
  unfold Date.Valid; infer_instance

/-- Days since 1970-01-01 (negative before), by the standard civil-calendar
formula (computed in `Nat`; valid for `Date.Valid` inputs). -/
def toDays (d : Date) : Int :=
  let y : Nat := (if d.month ≤ 2 then d.year - 1 else d.year).toNat
  let m : Nat := d.month.toNat
  let era : Nat := y / 400
  let yoe : Nat := y % 400
  let mp : Nat := if 2 < m then m - 3 else m + 9
  let doy : Nat := (153 * mp + 2) / 5 + d.day.toNat - 1
  let doe : Nat := yoe * 365 + yoe / 4 - yoe / 100 + doy
  (((era * 146097 + doe : Nat)) : Int) - 719468

/-- Inverse of `toDays` (the standard civil-from-days algorithm), failing with
`ValueError` outside year range 1..9999 as `datetime` does. -/
def fromDays (z : Int) : Except PyErr Date :=
  if z + 719468 < 0 then .error (.valueError ("year is out of range"))
  else
    let n : Nat := (z + 719468).toNat
    let era : Nat := n / 146097
    let doe : Nat := n % 146097
    let yoe : Nat := (doe - doe / 1460 + doe / 36524 - doe / 146096) / 365
    let y : Nat := yoe + era * 400
    let doy : Nat := doe - (365 * yoe + yoe / 4 - yoe / 100)
    let mp : Nat := (5 * doy + 2) / 153
    let dd : Nat := doy - (153 * mp + 2) / 5 + 1
    let m : Nat := if mp < 10 then mp + 3 else mp - 9
    let yy : Int := if (m : Int) ≤ 2 then (y : Int) + 1 else (y : Int)
    if 1 ≤ yy ∧ yy ≤ 9999 then .ok ⟨yy, (m : Int), (dd : Int)⟩
    else .error (.valueError ("year is out of range"))

/-- `date.weekday()`: Monday is 0, Sunday is 6 (1970-01-01 was a Thursday). -/
def weekdayOf (d : Date) : Int :=
  Int.emod (toDays d + 3) 7

/-- Lexicographic strict order on dates (`datetime.date` comparison). -/
def dateLtB (a b : Date) : Bool :=
  a.year < b.year ||
    (a.year == b.year &&
      (a.month < b.month || (a.month == b.month && a.day < b.day)))

/-- `date + timedelta(days=1)`: calendar day successor. -/
def nextDate (d : Date) : Date :=
  if d.day < daysInMonth d.year d.month then ⟨d.year, d.month, d.day + 1⟩
  else if d.month < 12 then ⟨d.year, d.month + 1, 1⟩
  else ⟨d.year + 1, 1, 1⟩

/-- `date - timedelta(days=1)`: calendar day predecessor. -/
def prevDate (d : Date) : Date :=
  if 1 < d.day then ⟨d.year, d.month, d.day - 1⟩
  else if 1 < d.month then ⟨d.year, d.month - 1, daysInMonth d.year (d.month - 1)⟩
  else ⟨d.year - 1, 12, 31⟩

/-- Microseconds into the (naive) day of a `Time` value. -/
def secUs (t : Time) : Int :=
  ((t.hour * 60 + t.minute) * 60 + t.second) * 1000000 + t.micro

/-- Absolute position of a datetime in microseconds since the epoch
(naive values are read with offset 0; comparison sites guard awareness). -/
def absUs (dt : DateTime) : Int :=
  toDays dt.date * 86400000000 + secUs dt.time - (dt.time.tz.getD 0) * 60000000

/-- `is_aware` for a datetime: our fixed-offset tzinfos always have a
non-`None` `utcoffset`, so awareness is just the presence of a tzinfo. -/
def isAware (dt : DateTime) : Bool :=
  dt.time.tz.isSome

/-- Python `time.__eq__`: aware times compare utcoffset-adjusted, naive times
compare field-wise, and a naive/aware mix is unequal. -/
def timeEq (a b : Time) : Bool :=
  match a.tz, b.tz with
  | some x, some y => secUs a - x * 60000000 == secUs b - y * 60000000
  | none, none => a == b
  | _, _ => false

/-- Python `datetime.__eq__`: aware pairs compare as absolute instants, a
naive/aware mix is unequal. -/
def dtEq (a b : DateTime) : Bool :=
  if isAware a != isAware b then false else absUs a == absUs b

/-- Python `datetime.__le__`, which raises `TypeError` on a naive/aware mix. -/
def dtLeE (a b : DateTime) : Except PyErr Bool :=
  if isAware a != isAware b then .error .typeError
  else .ok (decide (absUs a ≤ absUs b))

/-- `tz.localize(dt)` for a naive `dt`, identity for aware values, as used on
candidate lists (a fixed-offset localize just attaches the offset). -/
def localize (tz : Int) (dt : DateTime) : DateTime :=
  if isAware dt then dt else ⟨dt.date, { dt.time with tz := some tz }⟩

/-- Insert step of a stable insertion sort (`le y x` keeps earlier-listed
elements of equal key first, as Python's stable `sorted` does). -/
def insertLe (le : DateTime → DateTime → Bool) (x : DateTime) :
    List DateTime → List DateTime
  | [] => [x]
  | y :: ys => if le y x then y :: insertLe le x ys else x :: y :: ys

/-- Stable insertion sort of datetimes by absolute instant;
`reverse = true` sorts descending, mirroring `sorted(..., reverse=reverse)`
(only ever applied to all-aware lists in `parse`). -/
def sortDT (reverse : Bool) (l : List DateTime) : List DateTime :=
  l.foldl
    (fun acc x =>
      insertLe
        (fun a b => if reverse then absUs b ≤ absUs a else absUs a ≤ absUs b)
        x acc)
    []

/-- `range(a, b)` (step 1) on Python ints. -/
def intRangeAsc (a b : Int) : List Int :=
  (List.range (b - a).toNat).map (fun k => a + Int.ofNat k)

/-- `range(a, b, -1)` on Python ints. -/
def intRangeDesc (a b : Int) : List Int :=
  (List.range (a - b).toNat).map (fun k => a - Int.ofNat k)

/-- `str.split(sep)` for a one-character separator: keeps empty parts and on
the empty string yields `[[]]`, exactly as Python does. -/
def splitOnChar (sep : Char) : List Char → List (List Char)
  | [] => [[]]
  | c :: rest =>
    if c = sep then [] :: splitOnChar sep rest
    else
      match splitOnChar sep rest with
      | [] => [[c]]
      | p :: ps => (c :: p) :: ps

/-- Value of a nonempty all-decimal-digit character list. -/
def digitsVal : List Char → Option Nat
  | [] => none
  | c :: rest =>
    if c.isDigit then
      match rest with
      | [] => some (c.toNat - 48)
      | _ :: _ =>
        (digitsVal rest).map (fun v => (c.toNat - 48) * 10 ^ rest.length + v)
    else none

/-- Value of `int(str)` when it succeeds: an optional sign followed by
decimal digits (underscore and whitespace forms of the builtin are not
modelled; no token here uses them). -/
def pyIntCore (l : List Char) : Option Int :=
  match l with
  | [] => none
  | c :: rest =>
    if c = '+' then (digitsVal rest).map (fun v => (v : Int))
    else if c = '-' then (digitsVal rest).map (fun v => -(v : Int))
    else (digitsVal l).map (fun v => (v : Int))

/-- `int(str)`; failure is the builtin's `ValueError`. -/
def pyInt (l : List Char) : Except PyErr Int :=
  match pyIntCore l with
  | some v => .ok v
  | none => .error (.valueError ("invalid literal for int() with base 10"))

/-- `datetime.date(y, m, d)`: validates ranges, raising `ValueError`. -/
def pyDate (y m d : Int) : Except PyErr Date :=
  if (Date.mk y m d).Valid then .ok ⟨y, m, d⟩
  else .error (.valueError ("date value out of range"))

/-- `parse_iso_date` from the source: exactly three `-`-separated parts, each
parsed with `int`, then `datetime.date(...)`. -/
def parse_iso_date (s : List Char) : Except PyErr Date :=
  match splitOnChar '-' s with
  | [p0, p1, p2] => do
    let y ← pyInt p0
    let m ← pyInt p1
    let d ← pyInt p2
    pyDate y m d
  | _ =>
    .error (.valueError ("Failed to parse date (format should be YYYY-MM-DD)"))

/-- `datetime.datetime.fromtimestamp(ts, tz)` for an integer timestamp and a
fixed-offset `tz` (minutes): convert epoch seconds to a date and a
whole-second time in that offset. -/
def fromtimestamp (ts tz : Int) : Except PyErr DateTime := do
  let total := ts + tz * 60
  let days := Int.ediv total 86400
  let rem := Int.emod total 86400
  let d ← fromDays days
  .ok ⟨d, ⟨Int.ediv rem 3600, Int.ediv (Int.emod rem 3600) 60,
    Int.emod rem 60, 0, some tz⟩⟩

/-- Deep embedding of the predicates appended to the scalar buckets (year,
month, day, hour, minute, second).  `eqConst` is `equals_predicate(value)`;
`modZero` is `modulus_predicate(n)`; `isoYear`/`isoMonth`/`isoDay` are the
`lambda y: y == date.year` (etc.) closures of the ISO-date branch, which by
late binding read the final value of the loop variable `date`. -/
inductive IntPred where
  | eqConst (n : Int)
  | modZero (n : Int)
  | isoYear
  | isoMonth
  | isoDay
deriving DecidableEq

/-- Predicates of the composite `date` bucket. -/
inductive DatePred where
  | weekdayIs (i : Int)
  | eqDate (d : Date)
  | yearMem (l : List Int)
  | monthMem (l : List Int)
  | dayMem (l : List Int)
deriving DecidableEq

/-- Predicates of the composite `time` bucket. -/
inductive TimePred where
  | eqTime (t : Time)
  | hourMem (l : List Int)
  | minuteMem (l : List Int)
  | secondMem (l : List Int)
deriving DecidableEq

/-- Predicates of the composite `datetime` bucket (`geStart`/`leStart` are the
directional boundary closures `date_time >= start` / `<= start`). -/
inductive DateTimePred where
  | eqDT (x : DateTime)
  | dateMem (l : List Date)
  | timeMem (l : List Time)
  | geStart (s : DateTime)
  | leStart (s : DateTime)
deriving DecidableEq

/-- Evaluate a scalar-bucket predicate at a field value.  `lastIso` is the
final value of the classifier's `date` variable (see `IntPred`).  Python `%`
by zero raises `ZeroDivisionError`; for a nonzero modulus `v % n == 0` agrees
with `Int.emod v n == 0` (both hold exactly on divisibility). -/
def evalIntPred (lastIso : Option Date) : IntPred → Int → Except PyErr Bool
  | .eqConst n, v => .ok (v == n)
  | .modZero n, v =>
    if n == 0 then .error .zeroDivisionError else .ok (Int.emod v n == 0)
  | .isoYear, v => .ok (match lastIso with | some d => v == d.year | none => false)
  | .isoMonth, v => .ok (match lastIso with | some d => v == d.month | none => false)
  | .isoDay, v => .ok (match lastIso with | some d => v == d.day | none => false)

/-- Evaluate a date-bucket predicate (`in` membership uses `==`). -/
def evalDatePred : DatePred → Date → Except PyErr Bool
  | .weekdayIs i, d => .ok (weekdayOf d == i)
  | .eqDate x, d => .ok (d == x)
  | .yearMem l, d => .ok (l.contains d.year)
  | .monthMem l, d => .ok (l.contains d.month)
  | .dayMem l, d => .ok (l.contains d.day)

/-- Evaluate a time-bucket predicate. -/
def evalTimePred : TimePred → Time → Except PyErr Bool
  | .eqTime x, t => .ok (timeEq t x)
  | .hourMem l, t => .ok (l.contains t.hour)
  | .minuteMem l, t => .ok (l.contains t.minute)
  | .secondMem l, t => .ok (l.contains t.second)

/-- Evaluate a datetime-bucket predicate. -/
def evalDateTimePred : DateTimePred → DateTime → Except PyErr Bool
  | .eqDT x, v => .ok (dtEq v x)
  | .dateMem l, v => .ok (l.any (fun d => v.date == d))
  | .timeMem l, v => .ok (l.any (fun t => timeEq v.time t))
  | .geStart s, v => do let b ← dtLeE s v; .ok b
  | .leStart s, v => dtLeE v s

/-- `all(predicate(val) for predicate in predicates)`: left-to-right,
short-circuiting at the first `False`, propagating exceptions. -/
def allPredicates (ev : π → α → Except PyErr Bool) :
    List π → α → Except PyErr Bool
  | [], _ => .ok true
  | p :: ps, v => do
    let b ← ev p v
    if b then allPredicates ev ps v else .ok false

/-- Accumulator loop of `resolveAll` (tail recursion; the accumulated kept
values are reversed at the end, so the output keeps the input order). -/
def resolveAllAux (ev : π → α → Except PyErr Bool) (ps : List π) :
    List α → List α → Except PyErr (List α)
  | acc, [] => .ok acc.reverse
  | acc, v :: vs => do
    let b ← allPredicates ev ps v
    resolveAllAux ev ps (if b then v :: acc else acc) vs

/-- `list(resolve_predicates(predicates, values))`: drain the whole candidate
sequence, keeping values satisfying every predicate, in order; an exception
raised while testing a candidate propagates. -/
def resolveAll (ev : π → α → Except PyErr Bool) (ps : List π)
    (vs : List α) : Except PyErr (List α) :=
  resolveAllAux ev ps [] vs

/-- `predicate_list` from the source: materialize the filtered values and
raise `ValueError` if none survive. -/
def predicateList (ev : π → α → Except PyErr Bool) (ps : List π)
    (vs : List α) : Except PyErr (List α) := do
  let r ← resolveAll ev ps vs
  match r with
  | [] => .error (.valueError ("No matching datetime found"))
  | _ => .ok r

/-- `next(resolve_predicates(predicates, values))` up to the exhaustion
behaviour: the first value satisfying every predicate, `none` when the
sequence runs out. -/
def firstMatch (ev : π → α → Except PyErr Bool) (ps : List π) :
    List α → Except PyErr (Option α)
  | [] => .ok none
  | v :: vs => do
    let b ← allPredicates ev ps v
    if b then .ok (some v) else firstMatch ev ps vs

/-- `date_range` forward loop with explicit fuel (an upper bound on the number
of iterations; the loop itself stops on `date < end` like the source). -/
def dateRangeFwd : Nat → Date → Date → List Date
  | 0, _, _ => []
  | n + 1, d, e =>
    if dateLtB d e then d :: dateRangeFwd n (nextDate d) e else []

/-- `date_range` backward loop (`while date > end`), fuelled like
`dateRangeFwd`. -/
def dateRangeBwd : Nat → Date → Date → List Date
  | 0, _, _ => []
  | n + 1, d, e =>
    if dateLtB e d then d :: dateRangeBwd n (prevDate d) e else []

/-- Fuel bound for `dateRange`: the walk advances one day per step and the
source loop spans at most the years between the endpoints, so
`(|Δyear| + 2) * 366` steps always suffice. -/
def dateRangeFuel (s e : Date) : Nat :=
  ((e.year - s.year).natAbs + 2) * 366

/-- `date_range(start, end)` from the source: descending when `end < start`,
else ascending, end-exclusive. -/
def dateRange (s e : Date) : List Date :=
  if dateLtB e s then dateRangeBwd (dateRangeFuel s e) s e
  else dateRangeFwd (dateRangeFuel s e) s e

/-- `time_range(tz, reverse=...)`: the nested hour/minute/second sweep of
whole-second times carrying the configured tz. -/
def timeRange (tz : Int) (reverse : Bool) : List Time :=
  if reverse then
    (intRangeDesc 23 (-1)).flatMap fun h =>
      (intRangeDesc 59 (-1)).flatMap fun m =>
        (intRangeDesc 59 (-1)).map fun s => ⟨h, m, s, 0, some tz⟩
  else
    (intRangeAsc 0 24).flatMap fun h =>
      (intRangeAsc 0 60).flatMap fun m =>
        (intRangeAsc 0 60).map fun s => ⟨h, m, s, 0, some tz⟩

/-- The week-day name table of the source. -/
def WEEKDAYS : List (List Char) :=
  [("mon").toList, ("tue").toList, ("wed").toList, ("thu").toList,
    ("fri").toList, ("sat").toList, ("sun").toList]

/-- The nine predicate buckets accumulated by the token loop, together with
the final value of the loop variable `date` (see `IntPred`). -/
structure Buckets where
  yearP : List IntPred := []
  monthP : List IntPred := []
  dayP : List IntPred := []
  dateP : List DatePred := []
  hourP : List IntPred := []
  minuteP : List IntPred := []
  secondP : List IntPred := []
  timeP : List TimePred := []
  dtP : List DateTimePred := []
  lastIso : Option Date := none
deriving DecidableEq

/-- `None if time_unit == '' else int(time_unit)` for one `:`-separated
part. -/
def evalUnit (p : List Char) : Except PyErr (Option Int) :=
  match p with
  | [] => .ok none
  | _ => do let v ← pyInt p; .ok (some v)

/-- The time-fragment branch (`':' in predicate_str`).  A 3-part split binds
hour/minute/second; anything else goes through the 2-part unpacking, whose
generator evaluates `int` on the parts it draws before the unpack-arity
`ValueError` fires (so a 4-or-more-part token evaluates three parts and then
fails, exactly like CPython). -/
def timeFragment (b : Buckets) (t : List Char) : Except PyErr Buckets :=
  match splitOnChar ':' t with
  | [p0, p1, p2] => do
    let h ← evalUnit p0
    let m ← evalUnit p1
    let s ← evalUnit p2
    let b := match h with
      | some v => { b with hourP := b.hourP ++ [.eqConst v] }
      | none => b
    let b := match m with
      | some v => { b with minuteP := b.minuteP ++ [.eqConst v] }
      | none => b
    let b := match s with
      | some v => { b with secondP := b.secondP ++ [.eqConst v] }
      | none => b
    .ok b
  | [p0, p1] => do
    let h ← evalUnit p0
    let m ← evalUnit p1
    let b := match h with
      | some v => { b with hourP := b.hourP ++ [.eqConst v] }
      | none => b
    let b := match m with
      | some v => { b with minuteP := b.minuteP ++ [.eqConst v] }
      | none => b
    .ok b
  | p0 :: p1 :: p2 :: _ :: _ => do
    let _ ← evalUnit p0
    let _ ← evalUnit p1
    let _ ← evalUnit p2
    .error (.valueError ("too many values to unpack (expected 2)"))
  | [p0] => do
    let _ ← evalUnit p0
    .error (.valueError ("not enough values to unpack (expected 2, got 1)"))
  | [] => .error (.valueError ("not enough values to unpack (expected 2, got 0)"))

/-- One iteration of the token-classification loop of `parse`. -/
def tokenStep (reverse : Bool) (startDate : Date) (tz : Int)
    (b : Buckets) (t : List Char) : Except PyErr Buckets :=
  match parse_iso_date t with
  | .ok date =>
    if reverse then
      if dateLtB startDate date then
        .error (.valueError ("Specified date is in the future"))
      else
        .ok { b with
          yearP := b.yearP ++ [.isoYear]
          monthP := b.monthP ++ [.isoMonth]
          dayP := b.dayP ++ [.isoDay]
          lastIso := some date }
    else
      if dateLtB date startDate then
        .error (.valueError ("Specified date is in the past"))
      else
        .ok { b with
          yearP := b.yearP ++ [.isoYear]
          monthP := b.monthP ++ [.isoMonth]
          dayP := b.dayP ++ [.isoDay]
          lastIso := some date }
  | .error _ =>
    if t.contains ':' then timeFragment b t
    else
      match WEEKDAYS.findIdx? (fun w => w == t.map Char.toLower) with
      | some i => .ok { b with dateP := b.dateP ++ [.weekdayIs (i : Int)] }
      | none =>
        if t.getLast? == some 's' then do
          let n ← pyInt t.dropLast
          .ok { b with secondP := b.secondP ++ [.modZero n] }
        else if t.getLast? == some 'm' then do
          let n ← pyInt t.dropLast
          .ok { b with minuteP := b.minuteP ++ [.modZero n] }
        else if t.getLast? == some 'h' then do
          let n ← pyInt t.dropLast
          .ok { b with hourP := b.hourP ++ [.modZero n] }
        else if t.getLast? == some 'd' then do
          let n ← pyInt t.dropLast
          .ok { b with dayP := b.dayP ++ [.modZero n] }
        else
          match pyInt t with
          | .ok n =>
            if 1000000000 ≤ n then
              match fromtimestamp n tz with
              | .ok ts =>
                .ok { b with
                  dateP := b.dateP ++ [.eqDate ts.date]
                  timeP := b.timeP ++ [.eqTime ts.time]
                  dtP := b.dtP ++ [.eqDT ts] }
              | .error (.valueError _) =>
                -- `contextlib.suppress(ValueError)` swallows the error, the
                -- `continue` inside the block is skipped, and control falls
                -- through to `raise ValueError('Unknown timespec')`.
                .error (.valueError ("Unknown timespec"))
              | .error e => .error e
            else
              -- `continue` inside the suppress-block: a plain integer below
              -- 1000000000 is accepted silently, contributing nothing.
              .ok b
          | .error _ => .error (.valueError ("Unknown timespec"))

/-- The whole token-classification loop. -/
def classify (tokens : List (List Char)) (reverse : Bool) (startDate : Date)
    (tz : Int) : Except PyErr Buckets :=
  tokens.foldlM (tokenStep reverse startDate tz) {}

/-- The scan window computed by `parse` before the token loop: effective
start, effective end, and the (sorted, localized) candidate list when one was
supplied. -/
structure Config where
  start : DateTime
  endDT : DateTime
  cands : Option (List DateTime)
deriving DecidableEq

/-- The generative-mode `end`:
`start.replace(year=start.year ∓ 10, day=28 if start.month == 2 and
start.day == 29 else start.day)`.  `replace` validates the new date like the
`datetime.date` constructor. -/
def horizonEnd (reverse : Bool) (start : DateTime) : Except PyErr DateTime :=
  let y : Int := if reverse then start.date.year - 10 else start.date.year + 10
  let d : Int :=
    if start.date.month == 2 && start.date.day == 29 then 28 else start.date.day
  if (Date.mk y start.date.month d).Valid then
    .ok ⟨⟨y, start.date.month, d⟩, start.time⟩
  else .error (.valueError ("day is out of range for month"))

/-- Candidate handling and scan-window computation of `parse` (everything
before the token loop).  `now` is the externally supplied current instant
(`datetime.datetime.now(tz)`), used only when neither candidates nor a start
are given. -/
def setupStage (now : DateTime) (candidates : Option (List DateTime))
    (reverse : Bool) (start? : Option DateTime) (tz : Int) :
    Except PyErr Config :=
  match candidates with
  | some cs =>
    match h : sortDT reverse (cs.map (localize tz)) with
    | [] => .error (.valueError ("Empty candidates list"))
    | c :: rest =>
      .ok ⟨c, (c :: rest).getLast (by simp), some (c :: rest)⟩
  | none => do
    let start := start?.getD now
    let e ← horizonEnd reverse start
    .ok ⟨start, e, none⟩

/-- The domain-enumeration phase of `parse`: scalar field domains, the
derived membership predicates, and the materialized date and time domains
(in the exact order of the source). -/
def domainStage (bk : Buckets) (cfg : Config) (reverse : Bool) (tz : Int) :
    Except PyErr (List Date × List Time) := do
  let years ← predicateList (evalIntPred bk.lastIso) bk.yearP
    (if reverse then intRangeDesc cfg.start.date.year (cfg.endDT.date.year - 1)
      else intRangeAsc cfg.start.date.year (cfg.endDT.date.year + 1))
  let months ← predicateList (evalIntPred bk.lastIso) bk.monthP (intRangeAsc 1 13)
  let days ← predicateList (evalIntPred bk.lastIso) bk.dayP (intRangeAsc 1 32)
  let dateP :=
    if !bk.yearP.isEmpty || !bk.monthP.isEmpty || !bk.dayP.isEmpty then
      bk.dateP ++ [.yearMem years, .monthMem months, .dayMem days]
    else bk.dateP
  let dates ← predicateList evalDatePred dateP
    (if reverse then dateRange cfg.start.date (prevDate cfg.endDT.date)
      else dateRange cfg.start.date (nextDate cfg.endDT.date))
  let hours ← predicateList (evalIntPred bk.lastIso) bk.hourP (intRangeAsc 0 24)
  let minutes ← predicateList (evalIntPred bk.lastIso) bk.minuteP (intRangeAsc 0 60)
  let seconds ← predicateList (evalIntPred bk.lastIso) bk.secondP (intRangeAsc 0 60)
  let timeP :=
    if !bk.hourP.isEmpty || !bk.minuteP.isEmpty || !bk.secondP.isEmpty then
      bk.timeP ++ [.hourMem hours, .minuteMem minutes, .secondMem seconds]
    else bk.timeP
  let times ← predicateList evalTimePred timeP (timeRange tz reverse)
  .ok (dates, times)

/-- The full datetime-bucket predicate list: classifier predicates, the two
composite membership predicates, then the directional boundary predicate. -/
def dtPredsOf (bk : Buckets) (dates : List Date) (times : List Time)
    (reverse : Bool) (start : DateTime) : List DateTimePred :=
  bk.dtP ++ [.dateMem dates, .timeMem times] ++
    [if reverse then .leStart start else .geStart start]

/-- The candidate generator of the final search: the date × time cross
product in generative mode, the explicit candidate list otherwise. -/
def genOf (cfg : Config) (dates : List Date) (times : List Time) :
    List DateTime :=
  match cfg.cands with
  | none => dates.flatMap fun d => times.map fun t => ⟨d, t⟩
  | some cs => cs

/-- The final search of `parse`: one `next()` pull on the lazily filtered
generator (`StopIteration` when it is exhausted), then the awareness
`assert`. -/
def finalStage (bk : Buckets) (dates : List Date) (times : List Time)
    (cfg : Config) (reverse : Bool) : Except PyErr DateTime := do
  let r ← firstMatch evalDateTimePred
    (dtPredsOf bk dates times reverse cfg.start) (genOf cfg dates times)
  match r with
  | some v => if isAware v then .ok v else .error .assertionError
  | none => .error .stopIteration

/-- `timespec.parse(spec, candidates=..., reverse=..., start=..., tz=...)`.
`now` stands for the one external clock read (`datetime.datetime.now(tz)`). -/
def parse (now : DateTime) (spec : List String)
    (candidates : Option (List DateTime)) (reverse : Bool)
    (start? : Option DateTime) (tz : Int) : Except PyErr DateTime := do
  let cfg ← setupStage now candidates reverse start? tz
  let bk ← classify (spec.map String.toList) reverse cfg.start.date tz
  let (dates, times) ← domainStage bk cfg reverse tz
  finalStage bk dates times cfg reverse

/-! ## Generic lemmas about the predicate resolver -/

theorem ok_bind {ε α β : Type} (a : α) (f : α → Except ε β) :
    (Except.ok a >>= f) = f a := rfl

theorem error_bind {ε α β : Type} (e : ε) (f : α → Except ε β) :
    ((Except.error e : Except ε α) >>= f) = .error e := rfl

theorem allPredicates_nil (ev : π → α → Except PyErr Bool) (v : α) :
    allPredicates ev [] v = .ok true := rfl

theorem allPredicates_cons (ev : π → α → Except PyErr Bool) (p : π)
    (ps : List π) (v : α) :
    allPredicates ev (p :: ps) v =
      (ev p v >>= fun b => if b then allPredicates ev ps v else .ok false) :=
  rfl

/-- If the conjunction of predicates evaluates to `true`, every single
predicate in the list evaluates to `true`. -/
theorem allPredicates_eq_true_of_mem (ev : π → α → Except PyErr Bool)
    {ps : List π} {v : α} (h : allPredicates ev ps v = .ok true)
    {p : π} (hp : p ∈ ps) : ev p v = .ok true := by
  induction ps with
  | nil => cases hp
  | cons q qs ih =>
    rw [allPredicates_cons] at h
    rcases hq : ev q v with e | b
    · rw [hq, error_bind] at h; cases h
    · rw [hq, ok_bind] at h
      cases b with
      | false => cases h
      | true =>
        rcases List.mem_cons.mp hp with rfl | hmem
        · exact hq
        · exact ih h hmem

theorem resolveAllAux_nil_preds (ev : π → α → Except PyErr Bool)
    (acc l : List α) :
    resolveAllAux ev [] acc l = .ok (acc.reverse ++ l) := by
  induction l generalizing acc with
  | nil => simp [resolveAllAux]
  | cons v vs ih =>
    rw [resolveAllAux, allPredicates_nil, ok_bind]
    show resolveAllAux ev [] (v :: acc) vs = _
    rw [ih]
    simp

/-- Draining with an empty predicate list returns the input sequence. -/
theorem resolveAll_nil_preds (ev : π → α → Except PyErr Bool) (l : List α) :
    resolveAll ev [] l = .ok l := by
  rw [resolveAll, resolveAllAux_nil_preds]; rfl

/-- `predicate_list` with no predicates hands back a nonempty input. -/
theorem predicateList_nil_preds (ev : π → α → Except PyErr Bool) {l : List α}
    (h : l ≠ []) : predicateList ev [] l = .ok l := by
  rw [predicateList]
  rw [resolveAll_nil_preds]
  cases l with
  | nil => exact absurd rfl h
  | cons v vs => rfl

/-- Every element kept by the drain was among the candidates. -/
theorem resolveAllAux_subset (ev : π → α → Except PyErr Bool) (ps : List π)
    {acc l out : List α} (h : resolveAllAux ev ps acc l = .ok out) :
    ∀ x ∈ out, x ∈ acc ∨ x ∈ l := by
  induction l generalizing acc with
  | nil =>
    rw [resolveAllAux] at h
    cases h
    intro x hx
    exact Or.inl (List.mem_reverse.mp hx)
  | cons v vs ih =>
    rw [resolveAllAux] at h
    rcases hb : allPredicates ev ps v with e | b
    · rw [hb, error_bind] at h; cases h
    · rw [hb, ok_bind] at h
      intro x hx
      rcases ih h x hx with hacc | htail
      · by_cases hbv : b = true
        · subst hbv
          simp at hacc
          rcases hacc with rfl | h2
          · exact Or.inr (List.mem_cons_self _ _)
          · exact Or.inl h2
        · simp [Bool.eq_false_iff.mpr hbv] at hacc
          exact Or.inl hacc
      · exact Or.inr (List.mem_cons_of_mem _ htail)

theorem resolveAll_subset (ev : π → α → Except PyErr Bool) (ps : List π)
    {l out : List α} (h : resolveAll ev ps l = .ok out) :
    ∀ x ∈ out, x ∈ l := by
  intro x hx
  rcases resolveAllAux_subset ev ps h x hx with h2 | h2
  · cases h2
  · exact h2

theorem predicateList_subset (ev : π → α → Except PyErr Bool) (ps : List π)
    {l out : List α} (h : predicateList ev ps l = .ok out) :
    ∀ x ∈ out, x ∈ l := by
  rw [predicateList] at h
  rcases hr : resolveAll ev ps l with e | r
  · rw [hr] at h; cases h
  · rw [hr, ok_bind] at h
    cases r with
    | nil => cases h
    | cons a as =>
      cases h
      exact resolveAll_subset ev ps hr

/-! ## Lemmas about the final lazy search -/

theorem firstMatch_nil (ev : π → α → Except PyErr Bool) (ps : List π) :
    firstMatch ev ps [] = .ok none := rfl

theorem firstMatch_cons_true (ev : π → α → Except PyErr Bool) (ps : List π)
    {v : α} (l : List α) (h : allPredicates ev ps v = .ok true) :
    firstMatch ev ps (v :: l) = .ok (some v) := by
  rw [firstMatch, h]; rfl

theorem firstMatch_cons_false (ev : π → α → Except PyErr Bool) (ps : List π)
    {v : α} (l : List α) (h : allPredicates ev ps v = .ok false) :
    firstMatch ev ps (v :: l) = firstMatch ev ps l := by
  rw [firstMatch, h]; rfl

/-- Skipping a prefix on which every candidate fails. -/
theorem firstMatch_append_skip (ev : π → α → Except PyErr Bool) (ps : List π)
    {l1 : List α} (l2 : List α)
    (h : ∀ x ∈ l1, allPredicates ev ps x = .ok false) :
    firstMatch ev ps (l1 ++ l2) = firstMatch ev ps l2 := by
  induction l1 with
  | nil => rfl
  | cons v vs ih =>
    rw [List.cons_append,
      firstMatch_cons_false ev ps _ (h v (List.mem_cons_self _ _))]
    exact ih fun x hx => h x (List.mem_cons_of_mem _ hx)

/-- A found value belongs to the candidate sequence. -/
theorem firstMatch_mem (ev : π → α → Except PyErr Bool) (ps : List π)
    {l : List α} {r : α} (h : firstMatch ev ps l = .ok (some r)) : r ∈ l := by
  induction l with
  | nil => cases h
  | cons v vs ih =>
    rw [firstMatch] at h
    rcases hb : allPredicates ev ps v with e | b
    · rw [hb, error_bind] at h; cases h
    · rw [hb, ok_bind] at h
      cases b with
      | true => cases h; exact List.mem_cons_self _ _
      | false => exact List.mem_cons_of_mem _ (ih h)

/-- A found value satisfies the predicate conjunction. -/
theorem firstMatch_sat (ev : π → α → Except PyErr Bool) (ps : List π)
    {l : List α} {r : α} (h : firstMatch ev ps l = .ok (some r)) :
    allPredicates ev ps r = .ok true := by
  induction l with
  | nil => cases h
  | cons v vs ih =>
    rw [firstMatch] at h
    rcases hb : allPredicates ev ps v with e | b
    · rw [hb, error_bind] at h; cases h
    · rw [hb, ok_bind] at h
      cases b with
      | true => cases h; exact hb
      | false => exact ih h

/-- Inversion of `Except` bind. -/
theorem bind_eq_ok {ε α β : Type} {x : Except ε α} {f : α → Except ε β}
    {b : β} (h : (x >>= f) = .ok b) : ∃ a, x = .ok a ∧ f a = .ok b := by
  cases x with
  | error e => cases h
  | ok a => exact ⟨a, rfl, h⟩

/-! ## Lemmas about ranges and domain generators -/

theorem mem_intRangeAsc {a b x : Int} :
    x ∈ intRangeAsc a b ↔ a ≤ x ∧ x < b := by
  simp only [intRangeAsc, Int.ofNat_eq_natCast, List.mem_map, List.mem_range]
  constructor
  · rintro ⟨k, hk, rfl⟩; omega
  · rintro ⟨h1, h2⟩
    exact ⟨(x - a).toNat, by omega, by omega⟩

theorem mem_intRangeDesc {a b x : Int} :
    x ∈ intRangeDesc a b ↔ b < x ∧ x ≤ a := by
  simp only [intRangeDesc, Int.ofNat_eq_natCast, List.mem_map, List.mem_range]
  constructor
  · rintro ⟨k, hk, rfl⟩; omega
  · rintro ⟨h1, h2⟩
    exact ⟨(a - x).toNat, by omega, by omega⟩

theorem intRangeAsc_cons {a b : Int} (h : a < b) :
    intRangeAsc a b = a :: intRangeAsc (a + 1) b := by
  have hn : (b - a).toNat = (b - (a + 1)).toNat + 1 := by omega
  simp only [intRangeAsc, Int.ofNat_eq_natCast, hn, List.range_succ_eq_map,
    List.map_cons, List.map_map]
  rw [List.cons.injEq]
  refine ⟨by push_cast; omega, ?_⟩
  apply List.map_congr_left
  intro k _
  simp only [Function.comp, Int.ofNat_eq_natCast]
  push_cast
  omega

theorem intRangeAsc_ne_nil {a b : Int} (h : a < b) :
    intRangeAsc a b ≠ [] :=
  List.ne_nil_of_mem (mem_intRangeAsc.mpr ⟨le_refl a, h⟩)

theorem intRangeDesc_ne_nil {a b : Int} (h : b < a) :
    intRangeDesc a b ≠ [] :=
  List.ne_nil_of_mem (mem_intRangeDesc.mpr ⟨h, le_refl a⟩)

/-- Unfolding of the forward date walk at a nonempty step. -/
theorem dateRangeFwd_cons {n : Nat} {s e : Date} (h : dateLtB s e = true) :
    dateRangeFwd (n + 1) s e = s :: dateRangeFwd n (nextDate s) e := by
  rw [dateRangeFwd, if_pos h]

/-- Membership introduction for the time sweep. -/
theorem timeRange_mem_intro {tz h m s : Int} (hh : 0 ≤ h ∧ h < 24)
    (hm : 0 ≤ m ∧ m < 60) (hs : 0 ≤ s ∧ s < 60) (rev : Bool) :
    (⟨h, m, s, 0, some tz⟩ : Time) ∈ timeRange tz rev := by
  rw [timeRange]
  cases rev with
  | true =>
    simp only [if_true, List.mem_flatMap, List.mem_map]
    exact ⟨h, mem_intRangeDesc.mpr ⟨by omega, by omega⟩,
      m, mem_intRangeDesc.mpr ⟨by omega, by omega⟩,
      s, mem_intRangeDesc.mpr ⟨by omega, by omega⟩, rfl⟩
  | false =>
    simp only [Bool.false_eq_true, if_false, List.mem_flatMap, List.mem_map]
    exact ⟨h, mem_intRangeAsc.mpr ⟨by omega, by omega⟩,
      m, mem_intRangeAsc.mpr ⟨by omega, by omega⟩,
      s, mem_intRangeAsc.mpr ⟨by omega, by omega⟩, rfl⟩

/-- Every time produced by `time_range` is a whole second carrying the
configured tz, with in-range fields. -/
theorem mem_timeRange {tz : Int} {rev : Bool} {t : Time}
    (h : t ∈ timeRange tz rev) :
    t.micro = 0 ∧ t.tz = some tz ∧
      0 ≤ t.hour ∧ t.hour < 24 ∧ 0 ≤ t.minute ∧ t.minute < 60 ∧
      0 ≤ t.second ∧ t.second < 60 := by
  rw [timeRange] at h
  cases rev with
  | true =>
    simp only [if_true, List.mem_flatMap, List.mem_map] at h
    obtain ⟨hh, hhm, mm, hmm, ss, hss, rfl⟩ := h
    rw [mem_intRangeDesc] at hhm hmm hss
    refine ⟨rfl, rfl, ?_, ?_, ?_, ?_, ?_, ?_⟩ <;> dsimp only <;> omega
  | false =>
    simp only [Bool.false_eq_true, if_false, List.mem_flatMap,
      List.mem_map] at h
    obtain ⟨hh, hhm, mm, hmm, ss, hss, rfl⟩ := h
    rw [mem_intRangeAsc] at hhm hmm hss
    refine ⟨rfl, rfl, ?_, ?_, ?_, ?_, ?_, ?_⟩ <;> dsimp only <;> omega

/-- The time sweep is never empty. -/
theorem timeRange_ne_nil (tz : Int) (rev : Bool) : timeRange tz rev ≠ [] :=
  List.ne_nil_of_mem
    (@timeRange_mem_intro tz 0 0 0 (by omega) (by omega) (by omega) rev)

/-! ## Error propagation and setup helpers -/

theorem allPredicates_cons_error (ev : π → α → Except PyErr Bool) (ps : List π)
    {p : π} {v : α} {e : PyErr} (h : ev p v = .error e) :
    allPredicates ev (p :: ps) v = .error e := by
  rw [allPredicates_cons, h, error_bind]

theorem resolveAllAux_cons_error (ev : π → α → Except PyErr Bool) (ps : List π)
    (acc : List α) {v : α} (vs : List α) {e : PyErr}
    (h : allPredicates ev ps v = .error e) :
    resolveAllAux ev ps acc (v :: vs) = .error e := by
  rw [resolveAllAux, h, error_bind]

theorem predicateList_cons_error (ev : π → α → Except PyErr Bool) (ps : List π)
    {v : α} (vs : List α) {e : PyErr}
    (h : allPredicates ev ps v = .error e) :
    predicateList ev ps (v :: vs) = .error e := by
  rw [predicateList, resolveAll, resolveAllAux_cons_error ev ps [] vs h,
    error_bind]

theorem dateLtB_of_year_lt {a b : Date} (h : a.year < b.year) :
    dateLtB a b = true := by
  simp [dateLtB]
  omega

theorem dateLtB_false_of_year_lt {a b : Date} (h : b.year < a.year) :
    dateLtB a b = false := by
  simp [dateLtB]
  omega

theorem nextDate_year_ge (d : Date) : d.year ≤ (nextDate d).year := by
  rw [nextDate]
  split_ifs <;> simp

theorem prevDate_year_le (d : Date) : (prevDate d).year ≤ d.year := by
  rw [prevDate]
  split_ifs <;> simp

/-- Head decomposition of the forward `date_range`. -/
theorem dateRange_cons_fwd {s e : Date} (h1 : dateLtB e s = false)
    (h2 : dateLtB s e = true) :
    ∃ n, dateRange s e = s :: dateRangeFwd n (nextDate s) e := by
  refine ⟨dateRangeFuel s e - 1, ?_⟩
  rw [dateRange, h1, if_neg (by simp)]
  have hf : dateRangeFuel s e = (dateRangeFuel s e - 1) + 1 := by
    rw [dateRangeFuel]; omega
  conv_lhs => rw [hf]
  rw [dateRangeFwd_cons h2]

theorem dateRange_ne_nil_fwd {s e : Date} (h1 : dateLtB e s = false)
    (h2 : dateLtB s e = true) : dateRange s e ≠ [] := by
  obtain ⟨n, hn⟩ := dateRange_cons_fwd h1 h2
  rw [hn]
  simp

theorem daysInMonth_ge_28 (y m : Int) : 28 ≤ daysInMonth y m := by
  rw [daysInMonth]
  split_ifs <;> omega

theorem daysInMonth_two_le (y : Int) : daysInMonth y 2 ≤ 29 := by
  rw [daysInMonth]
  split_ifs <;> first | omega | simp_all

theorem daysInMonth_eq_of_ne_two {m : Int} (y y' : Int) (h : m ≠ 2) :
    daysInMonth y' m = daysInMonth y m := by
  rw [daysInMonth, daysInMonth]
  have hb : (m == 2) = false := by simp [h]
  rw [hb]
  simp

/-- The `replace` of the horizon computation always succeeds on a valid start
date whose shifted year stays in range, and produces exactly the
year-shifted, leap-day-clamped date (this is the content behind claim C6). -/
theorem horizonEnd_eq (reverse : Bool) (S : DateTime) (hv : S.date.Valid)
    (hy : if reverse then 11 ≤ S.date.year else S.date.year ≤ 9989) :
    horizonEnd reverse S =
      .ok ⟨⟨(if reverse then S.date.year - 10 else S.date.year + 10),
          S.date.month,
          (if S.date.month = 2 ∧ S.date.day = 29 then 28 else S.date.day)⟩,
        S.time⟩ := by
  obtain ⟨h1, h2, h3, h4, h5, h6⟩ := hv
  have hd : (if S.date.month == 2 && S.date.day == 29 then (28 : Int)
      else S.date.day) =
      (if S.date.month = 2 ∧ S.date.day = 29 then (28 : Int)
      else S.date.day) := by
    by_cases h : S.date.month = 2 ∧ S.date.day = 29
    · rw [if_pos h]
      have hb : (S.date.month == 2 && S.date.day == 29) = true := by
        simp [h.1, h.2]
      rw [hb, if_pos rfl]
    · rw [if_neg h]
      have hb : (S.date.month == 2 && S.date.day == 29) = false := by
        rcases Decidable.not_and_iff_or_not.mp h with hm | hdd
        · simp [hm]
        · simp [hdd]
      rw [hb]
      simp
  have hy1 : 1 ≤ (if reverse then S.date.year - 10 else S.date.year + 10) := by
    cases reverse <;> simp_all <;> omega
  have hy2 : (if reverse then S.date.year - 10 else S.date.year + 10) ≤ 9999 := by
    cases reverse <;> simp_all <;> omega
  have hval : (Date.mk (if reverse then S.date.year - 10 else S.date.year + 10)
      S.date.month
      (if S.date.month = 2 ∧ S.date.day = 29 then 28 else S.date.day)).Valid := by
    unfold Date.Valid
    dsimp only
    refine ⟨hy1, hy2, h3, h4, ?_, ?_⟩
    · by_cases h : S.date.month = 2 ∧ S.date.day = 29
      · rw [if_pos h]; omega
      · rw [if_neg h]; exact h5
    · have hge := daysInMonth_ge_28
        (if reverse then S.date.year - 10 else S.date.year + 10) S.date.month
      by_cases h : S.date.month = 2 ∧ S.date.day = 29
      · rw [if_pos h]; omega
      · rw [if_neg h]
        by_cases hm : S.date.month = 2
        · have hdd : S.date.day ≠ 29 := fun hc => h ⟨hm, hc⟩
          have hle : daysInMonth S.date.year S.date.month ≤ 29 := by
            rw [hm]; exact daysInMonth_two_le _
          omega
        · rw [daysInMonth_eq_of_ne_two S.date.year _ hm]
          exact h6
  rw [horizonEnd]
  simp only [hd]
  rw [if_pos hval]

/-- The generative-mode setup: no candidates, explicit start. -/
theorem setupStage_gen (now : DateTime) (reverse : Bool) (S : DateTime)
    (tz : Int) {E : DateTime} (h : horizonEnd reverse S = .ok E) :
    setupStage now none reverse (some S) tz = .ok ⟨S, E, none⟩ := by
  simp only [setupStage, Option.getD]
  rw [h, ok_bind]

/-! ## Claim C8: zero modulus tokens -/

theorem evalIntPred_modZero_zero (lastIso : Option Date) (v : Int) :
    evalIntPred lastIso (.modZero 0) v = .error .zeroDivisionError := rfl

/-- Shared setup for the C8 cases: the generative scan window of a forward
search from a valid start. -/
theorem setup_fwd_eq (now S : DateTime) (tz : Int) (hv : S.date.Valid)
    (hy : S.date.year ≤ 9989) :
    setupStage now none false (some S) tz =
      .ok ⟨S, ⟨⟨S.date.year + 10, S.date.month,
        (if S.date.month = 2 ∧ S.date.day = 29 then 28 else S.date.day)⟩,
        S.time⟩, none⟩ := by
  have hEnd := horizonEnd_eq false S hv (by simpa using hy)
  simp only [Bool.false_eq_true, if_false] at hEnd
  exact setupStage_gen now false S tz hEnd

theorem c8_days_case (lastIso : Option Date) :
    predicateList (evalIntPred lastIso) [.modZero 0] (intRangeAsc 1 32) =
      .error .zeroDivisionError := by
  rw [intRangeAsc_cons (by omega)]
  exact predicateList_cons_error _ _ _
    (allPredicates_cons_error _ _ (evalIntPred_modZero_zero lastIso 1))

theorem c8_hours_case (lastIso : Option Date) :
    predicateList (evalIntPred lastIso) [.modZero 0] (intRangeAsc 0 24) =
      .error .zeroDivisionError := by
  rw [intRangeAsc_cons (by omega)]
  exact predicateList_cons_error _ _ _
    (allPredicates_cons_error _ _ (evalIntPred_modZero_zero lastIso 0))

theorem c8_sixty_case (lastIso : Option Date) :
    predicateList (evalIntPred lastIso) [.modZero 0] (intRangeAsc 0 60) =
      .error .zeroDivisionError := by
  rw [intRangeAsc_cons (by omega)]
  exact predicateList_cons_error _ _ _
    (allPredicates_cons_error _ _ (evalIntPred_modZero_zero lastIso 0))

/-- The date domain of a forward window whose end year is ten years on is a
nonempty list starting at the start date. -/
theorem dates_window_ne_nil {S : DateTime} {d' : Int} :
    dateRange S.date (nextDate ⟨S.date.year + 10, S.date.month, d'⟩) ≠ [] := by
  have hye := nextDate_year_ge (⟨S.date.year + 10, S.date.month, d'⟩ : Date)
  dsimp only at hye
  refine dateRange_ne_nil_fwd (dateLtB_false_of_year_lt ?_)
    (dateLtB_of_year_lt ?_) <;> omega

/-- **C8**: a modulus-suffix token with integer prefix 0 (`0s`, `0m`, `0h`,
`0d`) makes `parse` fail with `ZeroDivisionError` while filtering the
corresponding scalar domain: `modulus_predicate(0)` divides by zero at the
first domain value tested, before any of the spec's `ValueError` kinds can
arise. -/
theorem c8_zero_modulus (now S : DateTime) (t : String)
    (ht : t ∈ (["0s", "0m", "0h", "0d"] : List String))
    (hv : S.date.Valid) (hy : S.date.year ≤ 9989) :
    parse now [t] none false (some S) 0 = .error .zeroDivisionError := by
  simp only [List.mem_cons, List.not_mem_nil, or_false] at ht
  rcases ht with rfl | rfl | rfl | rfl
  · -- "0s": seconds domain
    have hcls : classify (["0s"].map String.toList) false S.date 0 =
        .ok ⟨[], [], [], [], [], [], [.modZero 0], [], [], none⟩ := rfl
    rw [parse, setup_fwd_eq now S 0 hv hy, ok_bind, hcls, ok_bind, domainStage]
    dsimp only
    simp only [Bool.false_eq_true, if_false, List.isEmpty_nil, Bool.not_true,
      Bool.or_self, Bool.false_or, Bool.or_false, List.isEmpty_cons,
      Bool.not_false, Bool.true_or, if_true, List.nil_append]
    rw [predicateList_nil_preds _ (intRangeAsc_ne_nil (by omega)), ok_bind]
    rw [predicateList_nil_preds _ (intRangeAsc_ne_nil (by omega)), ok_bind]
    rw [predicateList_nil_preds _ (intRangeAsc_ne_nil (by omega)), ok_bind]
    rw [predicateList_nil_preds _ dates_window_ne_nil, ok_bind]
    rw [predicateList_nil_preds _ (intRangeAsc_ne_nil (by omega)), ok_bind]
    rw [predicateList_nil_preds _ (intRangeAsc_ne_nil (by omega)), ok_bind]
    rw [c8_sixty_case, error_bind, error_bind]
  · -- "0m": minutes domain
    have hcls : classify (["0m"].map String.toList) false S.date 0 =
        .ok ⟨[], [], [], [], [], [.modZero 0], [], [], [], none⟩ := rfl
    rw [parse, setup_fwd_eq now S 0 hv hy, ok_bind, hcls, ok_bind, domainStage]
    dsimp only
    simp only [Bool.false_eq_true, if_false, List.isEmpty_nil, Bool.not_true,
      Bool.or_self, Bool.false_or, Bool.or_false, List.isEmpty_cons,
      Bool.not_false, Bool.true_or, if_true, List.nil_append]
    rw [predicateList_nil_preds _ (intRangeAsc_ne_nil (by omega)), ok_bind]
    rw [predicateList_nil_preds _ (intRangeAsc_ne_nil (by omega)), ok_bind]
    rw [predicateList_nil_preds _ (intRangeAsc_ne_nil (by omega)), ok_bind]
    rw [predicateList_nil_preds _ dates_window_ne_nil, ok_bind]
    rw [predicateList_nil_preds _ (intRangeAsc_ne_nil (by omega)), ok_bind]
    rw [c8_sixty_case, error_bind, error_bind]
  · -- "0h": hours domain
    have hcls : classify (["0h"].map String.toList) false S.date 0 =
        .ok ⟨[], [], [], [], [.modZero 0], [], [], [], [], none⟩ := rfl
    rw [parse, setup_fwd_eq now S 0 hv hy, ok_bind, hcls, ok_bind, domainStage]
    dsimp only
    simp only [Bool.false_eq_true, if_false, List.isEmpty_nil, Bool.not_true,
      Bool.or_self, Bool.false_or, Bool.or_false, List.isEmpty_cons,
      Bool.not_false, Bool.true_or, if_true, List.nil_append]
    rw [predicateList_nil_preds _ (intRangeAsc_ne_nil (by omega)), ok_bind]
    rw [predicateList_nil_preds _ (intRangeAsc_ne_nil (by omega)), ok_bind]
    rw [predicateList_nil_preds _ (intRangeAsc_ne_nil (by omega)), ok_bind]
    rw [predicateList_nil_preds _ dates_window_ne_nil, ok_bind]
    rw [c8_hours_case, error_bind, error_bind]
  · -- "0d": day-of-month domain
    have hcls : classify (["0d"].map String.toList) false S.date 0 =
        .ok ⟨[], [], [.modZero 0], [], [], [], [], [], [], none⟩ := rfl
    rw [parse, setup_fwd_eq now S 0 hv hy, ok_bind, hcls, ok_bind, domainStage]
    dsimp only
    simp only [Bool.false_eq_true, if_false, List.isEmpty_nil, Bool.not_true,
      Bool.or_self, Bool.false_or, Bool.or_false, List.isEmpty_cons,
      Bool.not_false, Bool.true_or, if_true, List.nil_append]
    rw [predicateList_nil_preds _ (intRangeAsc_ne_nil (by omega)), ok_bind]
    rw [predicateList_nil_preds _ (intRangeAsc_ne_nil (by omega)), ok_bind]
    rw [c8_days_case, error_bind, error_bind]

/-- Witness for C8 at a concrete start. -/
theorem c8_witness :
    parse ⟨⟨2024, 1, 1⟩, ⟨0, 0, 0, 0, some 0⟩⟩ ["0s"] none false
      (some ⟨⟨2024, 1, 1⟩, ⟨0, 0, 0, 0, some 0⟩⟩) 0 =
      .error .zeroDivisionError :=
  c8_zero_modulus _ _ _ (by decide) (by decide) (by decide)

/-! ## Claim C6: the generative scan-window end -/

/-- **C6**: in generative mode the computed scan-window end is `start` with
the year shifted by ±10 and, exactly when the start date is 29 February, the
day replaced by 28; the resulting date is always valid (the `replace`
succeeds), so a leap-day start clamps to Feb 28 rather than producing Mar 1
or an invalid Feb 29. -/
theorem c6_horizon (reverse : Bool) (S : DateTime) (hv : S.date.Valid)
    (hy : if reverse then 11 ≤ S.date.year else S.date.year ≤ 9989) :
    horizonEnd reverse S =
      .ok ⟨⟨(if reverse then S.date.year - 10 else S.date.year + 10),
          S.date.month,
          (if S.date.month = 2 ∧ S.date.day = 29 then 28 else S.date.day)⟩,
        S.time⟩ :=
  horizonEnd_eq reverse S hv hy

/-- Witness for C6: Feb 29 2024, forward → the end falls on Feb 28 2034. -/
theorem c6_witness :
    horizonEnd false ⟨⟨2024, 2, 29⟩, ⟨0, 0, 0, 0, some 0⟩⟩ =
      .ok ⟨⟨2034, 2, 28⟩, ⟨0, 0, 0, 0, some 0⟩⟩ := by
  have h := c6_horizon false ⟨⟨2024, 2, 29⟩, ⟨0, 0, 0, 0, some 0⟩⟩
    (by decide) (by decide)
  simpa using h

/-! ## Inversion lemmas for the stages of `parse` -/

theorem parse_ok_inv {now : DateTime} {spec : List String}
    {cands : Option (List DateTime)} {reverse : Bool}
    {start? : Option DateTime} {tz : Int} {r : DateTime}
    (h : parse now spec cands reverse start? tz = .ok r) :
    ∃ cfg bk dates times,
      setupStage now cands reverse start? tz = .ok cfg ∧
      classify (spec.map String.toList) reverse cfg.start.date tz = .ok bk ∧
      domainStage bk cfg reverse tz = .ok (dates, times) ∧
      finalStage bk dates times cfg reverse = .ok r := by
  rw [parse] at h
  obtain ⟨cfg, hcfg, h⟩ := bind_eq_ok h
  obtain ⟨bk, hbk, h⟩ := bind_eq_ok h
  obtain ⟨p, hp, h⟩ := bind_eq_ok h
  exact ⟨cfg, bk, p.1, p.2, hcfg, hbk, hp, h⟩

theorem finalStage_ok_inv {bk : Buckets} {dates : List Date}
    {times : List Time} {cfg : Config} {reverse : Bool} {r : DateTime}
    (h : finalStage bk dates times cfg reverse = .ok r) :
    firstMatch evalDateTimePred (dtPredsOf bk dates times reverse cfg.start)
      (genOf cfg dates times) = .ok (some r) ∧ isAware r = true := by
  rw [finalStage] at h
  rcases hm : firstMatch evalDateTimePred
      (dtPredsOf bk dates times reverse cfg.start) (genOf cfg dates times)
    with e | o
  · rw [hm, error_bind] at h; cases h
  · rw [hm, ok_bind] at h
    cases o with
    | none => dsimp only at h; cases h
    | some v =>
      dsimp only at h
      by_cases ha : isAware v = true
      · rw [if_pos ha] at h
        injection h with h2
        subst h2
        exact ⟨rfl, ha⟩
      · rw [if_neg ha] at h
        cases h

theorem setupStage_cands_inv {now : DateTime} {cs : List DateTime}
    {reverse : Bool} {start? : Option DateTime} {tz : Int} {cfg : Config}
    (h : setupStage now (some cs) reverse start? tz = .ok cfg) :
    cfg.cands = some (sortDT reverse (cs.map (localize tz))) ∧
    ∃ c rest, sortDT reverse (cs.map (localize tz)) = c :: rest ∧
      cfg.start = c := by
  rw [setupStage] at h
  rcases hs : sortDT reverse (cs.map (localize tz)) with _ | ⟨c, rest⟩
  · rw [hs] at h; cases h
  · rw [hs] at h
    cases h
    exact ⟨rfl, c, rest, rfl, rfl⟩

theorem setupStage_none_inv {now : DateTime} {reverse : Bool}
    {start? : Option DateTime} {tz : Int} {cfg : Config}
    (h : setupStage now none reverse start? tz = .ok cfg) :
    cfg.cands = none ∧ cfg.start = start?.getD now := by
  rw [setupStage] at h
  obtain ⟨e, _, h⟩ := bind_eq_ok h
  cases h
  exact ⟨rfl, rfl⟩

/-- The times component of the domain stage is a filtered `time_range`. -/
theorem domainStage_times_inv {bk : Buckets} {cfg : Config} {reverse : Bool}
    {tz : Int} {dates : List Date} {times : List Time}
    (h : domainStage bk cfg reverse tz = .ok (dates, times)) :
    ∃ tp, predicateList evalTimePred tp (timeRange tz reverse) = .ok times := by
  rw [domainStage] at h
  obtain ⟨years, _, h⟩ := bind_eq_ok h
  obtain ⟨months, _, h⟩ := bind_eq_ok h
  obtain ⟨days, _, h⟩ := bind_eq_ok h
  obtain ⟨dates', _, h⟩ := bind_eq_ok h
  obtain ⟨hours, _, h⟩ := bind_eq_ok h
  obtain ⟨minutes, _, h⟩ := bind_eq_ok h
  obtain ⟨seconds, _, h⟩ := bind_eq_ok h
  obtain ⟨times', ht, h⟩ := bind_eq_ok h
  cases h
  exact ⟨_, ht⟩

/-! ## Claim C4: candidate-list mode returns a member of the list -/

theorem mem_insertLe {le : DateTime → DateTime → Bool} {x a : DateTime}
    {l : List DateTime} : a ∈ insertLe le x l ↔ a = x ∨ a ∈ l := by
  induction l with
  | nil => simp [insertLe]
  | cons y ys ih =>
    rw [insertLe]
    by_cases hc : le y x = true
    · rw [if_pos hc]
      simp only [List.mem_cons, ih]
      tauto
    · rw [if_neg hc]
      simp only [List.mem_cons]

theorem mem_sortDT {reverse : Bool} {l : List DateTime} {a : DateTime} :
    a ∈ sortDT reverse l ↔ a ∈ l := by
  rw [sortDT]
  suffices hgen : ∀ acc : List DateTime,
      a ∈ l.foldl (fun acc x => insertLe
        (fun a b => if reverse then absUs b ≤ absUs a else absUs a ≤ absUs b)
        x acc) acc ↔ a ∈ acc ∨ a ∈ l by
    rw [hgen []]
    simp
  induction l with
  | nil => intro acc; simp
  | cons x xs ih =>
    intro acc
    rw [List.foldl_cons, ih]
    rw [mem_insertLe]
    simp only [List.mem_cons]
    tauto

/-- **C4**: whenever an explicit candidate list is supplied and `parse`
succeeds, the returned value is a member of that list with each naive
candidate localized to the configured timezone — never a synthesized
datetime outside the list. -/
theorem c4_membership {now : DateTime} {spec : List String}
    {cs : List DateTime} {reverse : Bool} {start? : Option DateTime}
    {tz : Int} {r : DateTime}
    (h : parse now spec (some cs) reverse start? tz = .ok r) :
    r ∈ cs.map (localize tz) := by
  obtain ⟨cfg, bk, dates, times, hcfg, _, _, hfin⟩ := parse_ok_inv h
  obtain ⟨hfm, _⟩ := finalStage_ok_inv hfin
  have hmem := firstMatch_mem _ _ hfm
  obtain ⟨hcands, _⟩ := setupStage_cands_inv hcfg
  rw [genOf, hcands] at hmem
  exact mem_sortDT.mp hmem

/-! ## Claim C9: generative results are whole seconds in the configured tz -/

/-- **C9**: in generative mode every datetime `parse` returns has
`microsecond = 0` and carries the supplied timezone as its tzinfo, because
candidates are combined from calendar dates and the whole-second times of
`time_range(tz)`. -/
theorem c9_whole_second {now : DateTime} {spec : List String} {reverse : Bool}
    {start? : Option DateTime} {tz : Int} {r : DateTime}
    (h : parse now spec none reverse start? tz = .ok r) :
    r.time.micro = 0 ∧ r.time.tz = some tz := by
  obtain ⟨cfg, bk, dates, times, hcfg, _, hdom, hfin⟩ := parse_ok_inv h
  obtain ⟨hfm, _⟩ := finalStage_ok_inv hfin
  have hmem := firstMatch_mem _ _ hfm
  obtain ⟨hcands, _⟩ := setupStage_none_inv hcfg
  rw [genOf, hcands] at hmem
  simp only [List.mem_flatMap, List.mem_map] at hmem
  obtain ⟨d, hd, t, ht, rfl⟩ := hmem
  obtain ⟨tp, htimes⟩ := domainStage_times_inv hdom
  have hsub := predicateList_subset _ _ htimes
  have htr := mem_timeRange (hsub t ht)
  exact ⟨htr.1, htr.2.1⟩

/-! ## Claim C5: directional bounds of the result -/

theorem dtLeE_ok_true {a b : DateTime} (h : dtLeE a b = .ok true) :
    absUs a ≤ absUs b := by
  rw [dtLeE] at h
  by_cases hc : (isAware a != isAware b) = true
  · rw [if_pos hc] at h; cases h
  · rw [if_neg hc] at h
    injection h with h2
    exact of_decide_eq_true h2

theorem geStart_ok_true {s v : DateTime}
    (h : evalDateTimePred (.geStart s) v = .ok true) : absUs s ≤ absUs v := by
  rw [evalDateTimePred] at h
  rcases hd : dtLeE s v with e | b
  · rw [hd, error_bind] at h; cases h
  · rw [hd, ok_bind] at h
    injection h with h2
    subst h2
    exact dtLeE_ok_true hd

theorem leStart_ok_true {s v : DateTime}
    (h : evalDateTimePred (.leStart s) v = .ok true) : absUs v ≤ absUs s := by
  rw [evalDateTimePred] at h
  exact dtLeE_ok_true h

/-- **C5 (amended)**: in generative mode (no candidate list) the boundary
predicate guarantees the directional bound against the supplied start: a
forward search returns a value `≥ S`, a backward search a value `≤ S`.  (With
an explicit candidate list the code discards the supplied start, so there the
bound only holds against the first sorted candidate; see the
counterexample.) -/
theorem c5_amended {now : DateTime} {spec : List String} {reverse : Bool}
    {S : DateTime} {tz : Int} {r : DateTime}
    (h : parse now spec none reverse (some S) tz = .ok r) :
    (reverse = false → absUs S ≤ absUs r) ∧
      (reverse = true → absUs r ≤ absUs S) := by
  obtain ⟨cfg, bk, dates, times, hcfg, _, _, hfin⟩ := parse_ok_inv h
  obtain ⟨hfm, _⟩ := finalStage_ok_inv hfin
  have hsat := firstMatch_sat _ _ hfm
  obtain ⟨hcands, hstart⟩ := setupStage_none_inv hcfg
  simp only [Option.getD] at hstart
  have hb : (if reverse then DateTimePred.leStart cfg.start
      else DateTimePred.geStart cfg.start) ∈
      dtPredsOf bk dates times reverse cfg.start := by
    rw [dtPredsOf]
    simp
  have hev := allPredicates_eq_true_of_mem _ hsat hb
  rw [hstart] at hev
  cases reverse with
  | true =>
    rw [if_pos rfl] at hev
    exact ⟨fun hc => Bool.noConfusion hc, fun _ => leStart_ok_true hev⟩
  | false =>
    rw [if_neg (by simp)] at hev
    exact ⟨fun _ => geStart_ok_true hev, fun hc => Bool.noConfusion hc⟩

/-- The forward time sweep starts at midnight. -/
theorem timeRange_fwd_head (tz : Int) :
    ∃ tl, timeRange tz false = ⟨0, 0, 0, 0, some tz⟩ :: tl := by
  rw [timeRange, if_neg (by simp)]
  rw [intRangeAsc_cons (show (0 : Int) < 24 by omega)]
  rw [List.flatMap_cons]
  rw [intRangeAsc_cons (show (0 : Int) < 60 by omega)]
  rw [List.flatMap_cons]
  rw [List.map_cons]
  exact ⟨_, by rw [List.cons_append, List.cons_append]⟩

/-! ## Claim C2: a plain integer below 1e9 is silently accepted -/

/-- **C2 (bug evidence)**: the `continue` of the timestamp branch sits inside
the `contextlib.suppress(ValueError)` block, so the token `"5"` — a plain
integer below 1_000_000_000 matching no recognizer — is swallowed silently:
it contributes no predicate and raises nothing, and `parse` proceeds exactly
as for an empty spec, returning the start instant instead of failing with
`ValueError('Unknown timespec')`. -/
theorem c2_bug :
    parse ⟨⟨2024, 1, 1⟩, ⟨0, 0, 0, 0, some 0⟩⟩ ["5"] none false
      (some ⟨⟨2024, 1, 1⟩, ⟨0, 0, 0, 0, some 0⟩⟩) 0 =
      .ok ⟨⟨2024, 1, 1⟩, ⟨0, 0, 0, 0, some 0⟩⟩ := by
  rw [parse]
  rw [show setupStage ⟨⟨2024, 1, 1⟩, ⟨0, 0, 0, 0, some 0⟩⟩ none false
      (some ⟨⟨2024, 1, 1⟩, ⟨0, 0, 0, 0, some 0⟩⟩) 0 =
      .ok ⟨⟨⟨2024, 1, 1⟩, ⟨0, 0, 0, 0, some 0⟩⟩,
        ⟨⟨2034, 1, 1⟩, ⟨0, 0, 0, 0, some 0⟩⟩, none⟩ from rfl, ok_bind]
  rw [show classify (["5"].map String.toList) false ⟨2024, 1, 1⟩ 0 =
      .ok ⟨[], [], [], [], [], [], [], [], [], none⟩ from rfl, ok_bind]
  rw [domainStage]
  dsimp only
  simp only [Bool.false_eq_true, if_false, List.isEmpty_nil, Bool.not_true,
    Bool.or_self, Bool.false_or, Bool.or_false, if_true, List.nil_append]
  rw [predicateList_nil_preds _ (intRangeAsc_ne_nil (by omega)), ok_bind]
  rw [predicateList_nil_preds _ (intRangeAsc_ne_nil (by omega)), ok_bind]
  rw [predicateList_nil_preds _ (intRangeAsc_ne_nil (by omega)), ok_bind]
  rw [predicateList_nil_preds _ (dateRange_ne_nil_fwd (by decide) (by decide)),
    ok_bind]
  rw [predicateList_nil_preds _ (intRangeAsc_ne_nil (by omega)), ok_bind]
  rw [predicateList_nil_preds _ (intRangeAsc_ne_nil (by omega)), ok_bind]
  rw [ok_bind]
  rw [predicateList_nil_preds _ (timeRange_ne_nil 0 false), ok_bind]
  rw [ok_bind]
  dsimp only
  obtain ⟨n, hn⟩ := @dateRange_cons_fwd ⟨2024, 1, 1⟩
    (nextDate ⟨2034, 1, 1⟩) (by decide) (by decide)
  rw [hn]
  obtain ⟨tl, htl⟩ := timeRange_fwd_head 0
  rw [htl]
  rfl

/-- The forward time sweep's first two elements are 00:00:00 and 00:00:01. -/
theorem timeRange_fwd_head2 (tz : Int) :
    ∃ tl, timeRange tz false =
      ⟨0, 0, 0, 0, some tz⟩ :: ⟨0, 0, 1, 0, some tz⟩ :: tl := by
  rw [timeRange, if_neg (by simp)]
  rw [intRangeAsc_cons (show (0 : Int) < 24 by omega)]
  rw [List.flatMap_cons]
  rw [intRangeAsc_cons (show (0 : Int) < 60 by omega)]
  rw [List.flatMap_cons]
  rw [intRangeAsc_cons (show (0 : Int) + 1 < 60 by omega)]
  rw [show (0 : Int) + 1 = 1 from rfl]
  rw [List.map_cons, List.map_cons]
  rw [List.cons_append, List.cons_append, List.cons_append]
  exact ⟨_, rfl⟩

/-! ## Claim C1: exhaustion of the composite search -/

/-- **C1 (counterexample)**: spec `["wed"]` with the candidate list
[Tue 2024-01-02, Thu 2024-01-04]: the date domain is `[Wed 2024-01-03]`, both
candidates fail its membership predicate, the lazily filtered generator is
exhausted, and the bare `next()` raises `StopIteration` — not the
`ValueError('no matching datetime')` the claim promises. -/
theorem c1_counterexample :
    parse ⟨⟨2024, 1, 2⟩, ⟨0, 0, 0, 0, some 0⟩⟩ ["wed"]
      (some [⟨⟨2024, 1, 2⟩, ⟨0, 0, 0, 0, some 0⟩⟩,
             ⟨⟨2024, 1, 4⟩, ⟨0, 0, 0, 0, some 0⟩⟩]) false none 0 =
      .error .stopIteration := by
  rw [parse]
  rw [show setupStage ⟨⟨2024, 1, 2⟩, ⟨0, 0, 0, 0, some 0⟩⟩
      (some [⟨⟨2024, 1, 2⟩, ⟨0, 0, 0, 0, some 0⟩⟩,
             ⟨⟨2024, 1, 4⟩, ⟨0, 0, 0, 0, some 0⟩⟩]) false none 0 =
      .ok ⟨⟨⟨2024, 1, 2⟩, ⟨0, 0, 0, 0, some 0⟩⟩,
        ⟨⟨2024, 1, 4⟩, ⟨0, 0, 0, 0, some 0⟩⟩,
        some [⟨⟨2024, 1, 2⟩, ⟨0, 0, 0, 0, some 0⟩⟩,
              ⟨⟨2024, 1, 4⟩, ⟨0, 0, 0, 0, some 0⟩⟩]⟩ from rfl, ok_bind]
  rw [show classify (["wed"].map String.toList) false ⟨2024, 1, 2⟩ 0 =
      .ok ⟨[], [], [], [.weekdayIs 2], [], [], [], [], [], none⟩ from rfl,
    ok_bind]
  rw [domainStage]
  dsimp only
  simp only [Bool.false_eq_true, if_false, List.isEmpty_nil, Bool.not_true,
    Bool.or_self, Bool.false_or, Bool.or_false, if_true, List.nil_append]
  rw [predicateList_nil_preds _ (intRangeAsc_ne_nil (by omega)), ok_bind]
  rw [predicateList_nil_preds _ (intRangeAsc_ne_nil (by omega)), ok_bind]
  rw [predicateList_nil_preds _ (intRangeAsc_ne_nil (by omega)), ok_bind]
  rw [show predicateList evalDatePred [.weekdayIs 2]
      (dateRange ⟨2024, 1, 2⟩ (nextDate ⟨2024, 1, 4⟩)) =
      .ok [⟨2024, 1, 3⟩] from rfl, ok_bind]
  rw [predicateList_nil_preds _ (intRangeAsc_ne_nil (by omega)), ok_bind]
  rw [predicateList_nil_preds _ (intRangeAsc_ne_nil (by omega)), ok_bind]
  rw [ok_bind]
  rw [predicateList_nil_preds _ (timeRange_ne_nil 0 false), ok_bind]
  rw [ok_bind]
  rfl

/-- **C1 (amended)**: when the composite search generator is exhausted
without a match, `parse` fails with `StopIteration` from the bare `next()` —
the `ValueError('No matching datetime found')` is raised only while
materializing a scalar, date, or time domain. -/
theorem c1_amended (bk : Buckets) (dates : List Date) (times : List Time)
    (cfg : Config) (reverse : Bool)
    (h : firstMatch evalDateTimePred
      (dtPredsOf bk dates times reverse cfg.start) (genOf cfg dates times) =
      .ok none) :
    finalStage bk dates times cfg reverse = .error .stopIteration := by
  rw [finalStage, h, ok_bind]

/-- Witness for the amended C1 at a concrete exhausted search. -/
theorem c1_amended_witness :
    finalStage ⟨[], [], [], [], [], [], [], [], [], none⟩ [] []
      ⟨⟨⟨2024, 1, 1⟩, ⟨0, 0, 0, 0, some 0⟩⟩,
        ⟨⟨2024, 1, 1⟩, ⟨0, 0, 0, 0, some 0⟩⟩, some []⟩ false =
      .error .stopIteration :=
  c1_amended _ _ _ _ _ rfl

/-! ## Claim C3: late-binding of the ISO-date predicates -/

/-- **C3 (bug evidence)**: with the two distinct ISO-date tokens
`2024-03-15` and `2024-03-16`, all six year/month/day predicates compare
against the *last* parsed date (the closures capture the loop variable
`date`), so instead of producing an empty day domain and failing, `parse`
succeeds and returns 2024-03-16T00:00:00+00:00. -/
theorem c3_bug :
    parse ⟨⟨2024, 3, 15⟩, ⟨0, 0, 0, 0, some 0⟩⟩
      ["2024-03-15", "2024-03-16"]
      (some [⟨⟨2024, 3, 15⟩, ⟨0, 0, 0, 0, some 0⟩⟩,
             ⟨⟨2024, 3, 16⟩, ⟨0, 0, 0, 0, some 0⟩⟩]) false none 0 =
      .ok ⟨⟨2024, 3, 16⟩, ⟨0, 0, 0, 0, some 0⟩⟩ := by
  rw [parse]
  rw [show setupStage ⟨⟨2024, 3, 15⟩, ⟨0, 0, 0, 0, some 0⟩⟩
      (some [⟨⟨2024, 3, 15⟩, ⟨0, 0, 0, 0, some 0⟩⟩,
             ⟨⟨2024, 3, 16⟩, ⟨0, 0, 0, 0, some 0⟩⟩]) false none 0 =
      .ok ⟨⟨⟨2024, 3, 15⟩, ⟨0, 0, 0, 0, some 0⟩⟩,
        ⟨⟨2024, 3, 16⟩, ⟨0, 0, 0, 0, some 0⟩⟩,
        some [⟨⟨2024, 3, 15⟩, ⟨0, 0, 0, 0, some 0⟩⟩,
              ⟨⟨2024, 3, 16⟩, ⟨0, 0, 0, 0, some 0⟩⟩]⟩ from rfl, ok_bind]
  rw [show classify ((["2024-03-15", "2024-03-16"] : List String).map
        String.toList) false ⟨2024, 3, 15⟩ 0 =
      .ok ⟨[.isoYear, .isoYear], [.isoMonth, .isoMonth], [.isoDay, .isoDay],
        [], [], [], [], [], [], some ⟨2024, 3, 16⟩⟩ from rfl, ok_bind]
  rw [domainStage]
  dsimp only
  simp only [Bool.false_eq_true, if_false, List.isEmpty_nil, Bool.not_true,
    Bool.or_self, Bool.false_or, Bool.or_false, List.isEmpty_cons,
    Bool.not_false, Bool.true_or, if_true, List.nil_append]
  rw [show predicateList (evalIntPred (some ⟨2024, 3, 16⟩))
      [.isoYear, .isoYear] (intRangeAsc 2024 (2024 + 1)) =
      .ok [2024] from rfl, ok_bind]
  rw [show predicateList (evalIntPred (some ⟨2024, 3, 16⟩))
      [.isoMonth, .isoMonth] (intRangeAsc 1 13) = .ok [3] from rfl, ok_bind]
  rw [show predicateList (evalIntPred (some ⟨2024, 3, 16⟩))
      [.isoDay, .isoDay] (intRangeAsc 1 32) = .ok [16] from rfl, ok_bind]
  rw [show predicateList evalDatePred
      [.yearMem [2024], .monthMem [3], .dayMem [16]]
      (dateRange ⟨2024, 3, 15⟩ (nextDate ⟨2024, 3, 16⟩)) =
      .ok [⟨2024, 3, 16⟩] from rfl, ok_bind]
  rw [predicateList_nil_preds _ (intRangeAsc_ne_nil (by omega)), ok_bind]
  rw [predicateList_nil_preds _ (intRangeAsc_ne_nil (by omega)), ok_bind]
  rw [ok_bind]
  rw [predicateList_nil_preds _ (timeRange_ne_nil 0 false), ok_bind]
  rw [ok_bind]
  dsimp only
  obtain ⟨tl, htl⟩ := timeRange_fwd_head 0
  rw [htl]
  rfl

/-! ## Claim C5: counterexample (candidate mode ignores the supplied start) -/

/-- **C5 (counterexample)**: forward search with explicit start
2030-01-01T00:00Z but a candidate list containing only 2020-01-01T00:00Z
returns the 2020 candidate, which is *before* the supplied start: in
candidate-list mode `parse` reassigns `start = candidates[0]` and the
supplied start is ignored. -/
theorem c5_counterexample :
    parse ⟨⟨2030, 1, 1⟩, ⟨0, 0, 0, 0, some 0⟩⟩ []
      (some [⟨⟨2020, 1, 1⟩, ⟨0, 0, 0, 0, some 0⟩⟩]) false
      (some ⟨⟨2030, 1, 1⟩, ⟨0, 0, 0, 0, some 0⟩⟩) 0 =
      .ok ⟨⟨2020, 1, 1⟩, ⟨0, 0, 0, 0, some 0⟩⟩ ∧
    absUs ⟨⟨2020, 1, 1⟩, ⟨0, 0, 0, 0, some 0⟩⟩ <
      absUs ⟨⟨2030, 1, 1⟩, ⟨0, 0, 0, 0, some 0⟩⟩ := by
  constructor
  · rw [parse]
    rw [show setupStage ⟨⟨2030, 1, 1⟩, ⟨0, 0, 0, 0, some 0⟩⟩
        (some [⟨⟨2020, 1, 1⟩, ⟨0, 0, 0, 0, some 0⟩⟩]) false
        (some ⟨⟨2030, 1, 1⟩, ⟨0, 0, 0, 0, some 0⟩⟩) 0 =
        .ok ⟨⟨⟨2020, 1, 1⟩, ⟨0, 0, 0, 0, some 0⟩⟩,
          ⟨⟨2020, 1, 1⟩, ⟨0, 0, 0, 0, some 0⟩⟩,
          some [⟨⟨2020, 1, 1⟩, ⟨0, 0, 0, 0, some 0⟩⟩]⟩ from rfl, ok_bind]
    rw [show classify (([] : List String).map String.toList) false
        ⟨2020, 1, 1⟩ 0 =
        .ok ⟨[], [], [], [], [], [], [], [], [], none⟩ from rfl, ok_bind]
    rw [domainStage]
    dsimp only
    simp only [Bool.false_eq_true, if_false, List.isEmpty_nil, Bool.not_true,
      Bool.or_self, Bool.false_or, Bool.or_false, if_true, List.nil_append]
    rw [predicateList_nil_preds _ (intRangeAsc_ne_nil (by omega)), ok_bind]
    rw [predicateList_nil_preds _ (intRangeAsc_ne_nil (by omega)), ok_bind]
    rw [predicateList_nil_preds _ (intRangeAsc_ne_nil (by omega)), ok_bind]
    rw [predicateList_nil_preds _
      (dateRange_ne_nil_fwd (by decide) (by decide)), ok_bind]
    rw [predicateList_nil_preds _ (intRangeAsc_ne_nil (by omega)), ok_bind]
    rw [predicateList_nil_preds _ (intRangeAsc_ne_nil (by omega)), ok_bind]
    rw [ok_bind]
    rw [predicateList_nil_preds _ (timeRange_ne_nil 0 false), ok_bind]
    rw [ok_bind]
    dsimp only
    obtain ⟨tl, htl⟩ := timeRange_fwd_head 0
    rw [htl]
    rfl
  · decide

/-! ## Witness runs: concrete successful invocations of `parse` -/

/-- A concrete candidate-mode run: the single aware midnight candidate is
returned. -/
theorem c4_witness_run :
    parse ⟨⟨2021, 5, 3⟩, ⟨0, 0, 0, 0, some 0⟩⟩ []
      (some [⟨⟨2021, 5, 3⟩, ⟨0, 0, 0, 0, some 0⟩⟩]) false none 0 =
      .ok ⟨⟨2021, 5, 3⟩, ⟨0, 0, 0, 0, some 0⟩⟩ := by
  rw [parse]
  rw [show setupStage ⟨⟨2021, 5, 3⟩, ⟨0, 0, 0, 0, some 0⟩⟩
      (some [⟨⟨2021, 5, 3⟩, ⟨0, 0, 0, 0, some 0⟩⟩]) false none 0 =
      .ok ⟨⟨⟨2021, 5, 3⟩, ⟨0, 0, 0, 0, some 0⟩⟩,
        ⟨⟨2021, 5, 3⟩, ⟨0, 0, 0, 0, some 0⟩⟩,
        some [⟨⟨2021, 5, 3⟩, ⟨0, 0, 0, 0, some 0⟩⟩]⟩ from rfl, ok_bind]
  rw [show classify (([] : List String).map String.toList) false
      ⟨2021, 5, 3⟩ 0 =
      .ok ⟨[], [], [], [], [], [], [], [], [], none⟩ from rfl, ok_bind]
  rw [domainStage]
  dsimp only
  simp only [Bool.false_eq_true, if_false, List.isEmpty_nil, Bool.not_true,
    Bool.or_self, Bool.false_or, Bool.or_false, if_true, List.nil_append]
  rw [predicateList_nil_preds _ (intRangeAsc_ne_nil (by omega)), ok_bind]
  rw [predicateList_nil_preds _ (intRangeAsc_ne_nil (by omega)), ok_bind]
  rw [predicateList_nil_preds _ (intRangeAsc_ne_nil (by omega)), ok_bind]
  rw [predicateList_nil_preds _
    (dateRange_ne_nil_fwd (by decide) (by decide)), ok_bind]
  rw [predicateList_nil_preds _ (intRangeAsc_ne_nil (by omega)), ok_bind]
  rw [predicateList_nil_preds _ (intRangeAsc_ne_nil (by omega)), ok_bind]
  rw [ok_bind]
  rw [predicateList_nil_preds _ (timeRange_ne_nil 0 false), ok_bind]
  rw [ok_bind]
  dsimp only
  obtain ⟨tl, htl⟩ := timeRange_fwd_head 0
  rw [htl]
  rfl

/-- Witness for C4: the returned value is a member of the localized
candidate list. -/
theorem c4_witness :
    (⟨⟨2021, 5, 3⟩, ⟨0, 0, 0, 0, some 0⟩⟩ : DateTime) ∈
      ([⟨⟨2021, 5, 3⟩, ⟨0, 0, 0, 0, some 0⟩⟩] : List DateTime).map
        (localize 0) :=
  c4_membership c4_witness_run

/-- A concrete generative run: an empty spec from a whole-second start
returns the start itself. -/
theorem c9_witness_run :
    parse ⟨⟨2030, 3, 10⟩, ⟨0, 0, 0, 0, some 0⟩⟩ [] none false
      (some ⟨⟨2030, 3, 10⟩, ⟨0, 0, 0, 0, some 0⟩⟩) 0 =
      .ok ⟨⟨2030, 3, 10⟩, ⟨0, 0, 0, 0, some 0⟩⟩ := by
  rw [parse]
  rw [show setupStage ⟨⟨2030, 3, 10⟩, ⟨0, 0, 0, 0, some 0⟩⟩ none false
      (some ⟨⟨2030, 3, 10⟩, ⟨0, 0, 0, 0, some 0⟩⟩) 0 =
      .ok ⟨⟨⟨2030, 3, 10⟩, ⟨0, 0, 0, 0, some 0⟩⟩,
        ⟨⟨2040, 3, 10⟩, ⟨0, 0, 0, 0, some 0⟩⟩, none⟩ from rfl, ok_bind]
  rw [show classify (([] : List String).map String.toList) false
      ⟨2030, 3, 10⟩ 0 =
      .ok ⟨[], [], [], [], [], [], [], [], [], none⟩ from rfl, ok_bind]
  rw [domainStage]
  dsimp only
  simp only [Bool.false_eq_true, if_false, List.isEmpty_nil, Bool.not_true,
    Bool.or_self, Bool.false_or, Bool.or_false, if_true, List.nil_append]
  rw [predicateList_nil_preds _ (intRangeAsc_ne_nil (by omega)), ok_bind]
  rw [predicateList_nil_preds _ (intRangeAsc_ne_nil (by omega)), ok_bind]
  rw [predicateList_nil_preds _ (intRangeAsc_ne_nil (by omega)), ok_bind]
  rw [predicateList_nil_preds _
    (dateRange_ne_nil_fwd (by decide) (by decide)), ok_bind]
  rw [predicateList_nil_preds _ (intRangeAsc_ne_nil (by omega)), ok_bind]
  rw [predicateList_nil_preds _ (intRangeAsc_ne_nil (by omega)), ok_bind]
  rw [ok_bind]
  rw [predicateList_nil_preds _ (timeRange_ne_nil 0 false), ok_bind]
  rw [ok_bind]
  dsimp only
  obtain ⟨n, hn⟩ := @dateRange_cons_fwd ⟨2030, 3, 10⟩
    (nextDate ⟨2040, 3, 10⟩) (by decide) (by decide)
  rw [hn]
  obtain ⟨tl, htl⟩ := timeRange_fwd_head 0
  rw [htl]
  rfl

/-- Witness for C9. -/
theorem c9_witness :
    (⟨⟨2030, 3, 10⟩, ⟨0, 0, 0, 0, some 0⟩⟩ : DateTime).time.micro = 0 ∧
      (⟨⟨2030, 3, 10⟩, ⟨0, 0, 0, 0, some 0⟩⟩ : DateTime).time.tz = some 0 :=
  c9_whole_second c9_witness_run

/-- A concrete generative run with sub-second start: the next whole second is
returned. -/
theorem c5_witness_run :
    parse ⟨⟨2026, 4, 7⟩, ⟨0, 0, 0, 500000, some 0⟩⟩ [] none false
      (some ⟨⟨2026, 4, 7⟩, ⟨0, 0, 0, 500000, some 0⟩⟩) 0 =
      .ok ⟨⟨2026, 4, 7⟩, ⟨0, 0, 1, 0, some 0⟩⟩ := by
  rw [parse]
  rw [show setupStage ⟨⟨2026, 4, 7⟩, ⟨0, 0, 0, 500000, some 0⟩⟩ none false
      (some ⟨⟨2026, 4, 7⟩, ⟨0, 0, 0, 500000, some 0⟩⟩) 0 =
      .ok ⟨⟨⟨2026, 4, 7⟩, ⟨0, 0, 0, 500000, some 0⟩⟩,
        ⟨⟨2036, 4, 7⟩, ⟨0, 0, 0, 500000, some 0⟩⟩, none⟩ from rfl, ok_bind]
  rw [show classify (([] : List String).map String.toList) false
      ⟨2026, 4, 7⟩ 0 =
      .ok ⟨[], [], [], [], [], [], [], [], [], none⟩ from rfl, ok_bind]
  rw [domainStage]
  dsimp only
  simp only [Bool.false_eq_true, if_false, List.isEmpty_nil, Bool.not_true,
    Bool.or_self, Bool.false_or, Bool.or_false, if_true, List.nil_append]
  rw [predicateList_nil_preds _ (intRangeAsc_ne_nil (by omega)), ok_bind]
  rw [predicateList_nil_preds _ (intRangeAsc_ne_nil (by omega)), ok_bind]
  rw [predicateList_nil_preds _ (intRangeAsc_ne_nil (by omega)), ok_bind]
  rw [predicateList_nil_preds _
    (dateRange_ne_nil_fwd (by decide) (by decide)), ok_bind]
  rw [predicateList_nil_preds _ (intRangeAsc_ne_nil (by omega)), ok_bind]
  rw [predicateList_nil_preds _ (intRangeAsc_ne_nil (by omega)), ok_bind]
  rw [ok_bind]
  rw [predicateList_nil_preds _ (timeRange_ne_nil 0 false), ok_bind]
  rw [ok_bind]
  dsimp only
  obtain ⟨n, hn⟩ := @dateRange_cons_fwd ⟨2026, 4, 7⟩
    (nextDate ⟨2036, 4, 7⟩) (by decide) (by decide)
  rw [hn]
  obtain ⟨tl, htl⟩ := timeRange_fwd_head2 0
  rw [htl]
  rfl

/-- Witness for the amended C5: the forward result is at or after the
supplied start. -/
theorem c5_amended_witness :
    absUs ⟨⟨2026, 4, 7⟩, ⟨0, 0, 0, 500000, some 0⟩⟩ ≤
      absUs ⟨⟨2026, 4, 7⟩, ⟨0, 0, 1, 0, some 0⟩⟩ :=
  (c5_amended c5_witness_run).1 rfl

/-! ## Claim C10: colon tokens with a bad part count -/

theorem digitsVal_none_of_colon {p : List Char} (h : ':' ∈ p) :
    digitsVal p = none := by
  induction p with
  | nil => cases h
  | cons c rest ih =>
    rw [digitsVal.eq_def]
    dsimp only
    by_cases hd : c.isDigit
    · rw [if_pos hd]
      rcases List.mem_cons.mp h with rfl | hm
      · exact absurd hd (by decide)
      · cases rest with
        | nil => cases hm
        | cons d ds =>
          rw [ih hm]
          rfl
    · rw [if_neg hd]

theorem pyIntCore_none_of_colon {p : List Char} (h : ':' ∈ p) :
    pyIntCore p = none := by
  cases p with
  | nil => cases h
  | cons c rest =>
    rw [pyIntCore.eq_def]
    dsimp only
    rcases List.mem_cons.mp h with rfl | hm
    · rw [if_neg (by decide), if_neg (by decide),
        digitsVal_none_of_colon h]
      rfl
    · by_cases hp : c = '+'
      · rw [if_pos hp, digitsVal_none_of_colon hm]
        rfl
      · rw [if_neg hp]
        by_cases hn : c = '-'
        · rw [if_pos hn, digitsVal_none_of_colon hm]
          rfl
        · rw [if_neg hn,
            digitsVal_none_of_colon (List.mem_cons_of_mem _ hm)]
          rfl

/-- `int()` rejects any string containing a colon. -/
theorem pyInt_error_of_colon {p : List Char} (h : ':' ∈ p) :
    pyInt p =
      .error (.valueError ("invalid literal for int() with base 10")) := by
  rw [pyInt.eq_def, pyIntCore_none_of_colon h]

/-- A character distinct from the separator survives the split: it lives in
one of the produced parts. -/
theorem splitOnChar_mem_of_mem {sep c : Char} {l : List Char} (hc : c ∈ l)
    (hne : c ≠ sep) : ∃ p ∈ splitOnChar sep l, c ∈ p := by
  induction l with
  | nil => cases hc
  | cons d rest ih =>
    rw [splitOnChar]
    rcases List.mem_cons.mp hc with rfl | hm
    · rw [if_neg hne]
      rcases hs : splitOnChar sep rest with _ | ⟨p, ps⟩
      · exact ⟨[c], List.mem_singleton.mpr rfl, List.mem_cons_self _ _⟩
      · exact ⟨c :: p, List.mem_cons_self _ _, List.mem_cons_self _ _⟩
    · by_cases hd : d = sep
      · rw [if_pos hd]
        obtain ⟨p, hp, hcp⟩ := ih hm
        exact ⟨p, List.mem_cons_of_mem _ hp, hcp⟩
      · rw [if_neg hd]
        obtain ⟨p, hp, hcp⟩ := ih hm
        rcases hs : splitOnChar sep rest with _ | ⟨q, qs⟩
        · rw [hs] at hp; cases hp
        · rw [hs] at hp
          rcases List.mem_cons.mp hp with rfl | hq
          · exact ⟨d :: p, List.mem_cons_self _ _, List.mem_cons_of_mem _ hcp⟩
          · exact ⟨p, List.mem_cons_of_mem _ hq, hcp⟩

/-- A token containing a colon never parses as an ISO date: the colon ends up
inside one of the `-`-separated parts and `int()` rejects it. -/
theorem parse_iso_not_ok_of_colon {t : List Char} (hc : ':' ∈ t) {d : Date}
    (h : parse_iso_date t = .ok d) : False := by
  rw [parse_iso_date] at h
  rcases hs : splitOnChar '-' t with _ | ⟨p0, rest⟩
  · rw [hs] at h; cases h
  · obtain ⟨p, hp, hcp⟩ := @splitOnChar_mem_of_mem '-' ':' t hc (by decide)
    rw [hs] at h hp
    cases rest with
    | nil => cases h
    | cons p1 rest2 =>
      cases rest2 with
      | nil => cases h
      | cons p2 rest3 =>
        cases rest3 with
        | cons q qs => cases h
        | nil =>
          obtain ⟨y, hy, h⟩ := bind_eq_ok h
          obtain ⟨m, hm, h⟩ := bind_eq_ok h
          obtain ⟨dd, hdd, h⟩ := bind_eq_ok h
          simp only [List.mem_cons, List.not_mem_nil, or_false] at hp
          rcases hp with rfl | rfl | rfl
          · rw [pyInt_error_of_colon hcp] at hy; cases hy
          · rw [pyInt_error_of_colon hcp] at hm; cases hm
          · rw [pyInt_error_of_colon hcp] at hdd; cases hdd

/-- `evalUnit` either succeeds or fails with a `ValueError` (the only error
`int()` raises). -/
theorem evalUnit_shape (p : List Char) :
    (∃ o, evalUnit p = .ok o) ∨
      (∃ m, evalUnit p = .error (.valueError m)) := by
  rw [evalUnit.eq_def]
  cases p with
  | nil => exact Or.inl ⟨none, rfl⟩
  | cons c rest =>
    dsimp only
    rw [pyInt.eq_def]
    rcases hco : pyIntCore (c :: rest) with _ | w
    · dsimp only
      rw [error_bind]
      exact Or.inr ⟨_, rfl⟩
    · dsimp only
      rw [ok_bind]
      exact Or.inl ⟨_, rfl⟩

/-- The time-fragment branch fails with some `ValueError` whenever the colon
split has a part count other than 2 or 3 (either an `int()` failure on one of
the first three parts, or the tuple-unpacking arity error). -/
theorem timeFragment_error (b : Buckets) {t : List Char}
    (h2 : (splitOnChar ':' t).length ≠ 2)
    (h3 : (splitOnChar ':' t).length ≠ 3) :
    ∃ m, timeFragment b t = .error (.valueError m) := by
  rw [timeFragment.eq_def]
  rcases hs : splitOnChar ':' t with _ | ⟨p0, r1⟩
  · exact ⟨_, rfl⟩
  · rcases r1 with _ | ⟨p1, r2⟩
    · dsimp only
      rcases evalUnit_shape p0 with ⟨o, ho⟩ | ⟨m, hm⟩
      · rw [ho, ok_bind]
        exact ⟨_, rfl⟩
      · rw [hm, error_bind]
        exact ⟨_, rfl⟩
    · rcases r2 with _ | ⟨p2, r3⟩
      · exact absurd (by rw [hs]; rfl) h2
      · rcases r3 with _ | ⟨p3, r4⟩
        · exact absurd (by rw [hs]; rfl) h3
        · dsimp only
          rcases evalUnit_shape p0 with ⟨o0, h0⟩ | ⟨m0, hm0⟩
          · rw [h0, ok_bind]
            rcases evalUnit_shape p1 with ⟨o1, h1⟩ | ⟨m1, hm1⟩
            · rw [h1, ok_bind]
              rcases evalUnit_shape p2 with ⟨o2, ho2⟩ | ⟨m2, hm2⟩
              · rw [ho2, ok_bind]
                exact ⟨_, rfl⟩
              · rw [hm2, error_bind]
                exact ⟨_, rfl⟩
            · rw [hm1, error_bind]
              exact ⟨_, rfl⟩
          · rw [hm0, error_bind]
            exact ⟨_, rfl⟩

/-- Classification of a colon token with a bad part count always raises a
`ValueError` from inside the time-fragment branch: it never falls through to
the weekday, modulus or timestamp recognizers. -/
theorem tokenStep_colon_error (reverse : Bool) (startDate : Date) (tz : Int)
    (b : Buckets) {t : List Char} (hc : ':' ∈ t)
    (h2 : (splitOnChar ':' t).length ≠ 2)
    (h3 : (splitOnChar ':' t).length ≠ 3) :
    ∃ m, tokenStep reverse startDate tz b t = .error (.valueError m) := by
  rw [tokenStep.eq_def]
  rcases hiso : parse_iso_date t with e | d
  · dsimp only
    rw [if_pos (show t.contains ':' = true from List.elem_iff.mpr hc)]
    exact timeFragment_error b h2 h3
  · exact (parse_iso_not_ok_of_colon hc hiso).elim

/-- **C10**: a spec token containing `:` whose colon-split has a part count
other than 2 or 3 (such as `1:2:3:4`) makes `parse` raise a `ValueError`:
the classifier commits to the time-fragment branch on seeing the colon, and
the two-part unpacking of four or more parts fails (after evaluating `int()`
on the first three parts). -/
theorem c10_colon_token (now S : DateTime) (t : String)
    (hc : ':' ∈ t.toList)
    (h2 : (splitOnChar ':' t.toList).length ≠ 2)
    (h3 : (splitOnChar ':' t.toList).length ≠ 3)
    (hv : S.date.Valid) (hy : S.date.year ≤ 9989) :
    ∃ m, parse now [t] none false (some S) 0 = .error (.valueError m) := by
  obtain ⟨m, hm⟩ := tokenStep_colon_error false S.date 0 {} hc h2 h3
  refine ⟨m, ?_⟩
  rw [parse, setup_fwd_eq now S 0 hv hy, ok_bind]
  dsimp only [List.map_cons, List.map_nil]
  rw [classify, List.foldlM_cons, hm, error_bind, error_bind]

/-- Witness for C10 on the token `1:2:3:4`. -/
theorem c10_witness :
    ∃ m, parse ⟨⟨2024, 1, 1⟩, ⟨0, 0, 0, 0, some 0⟩⟩ ["1:2:3:4"] none false
      (some ⟨⟨2024, 1, 1⟩, ⟨0, 0, 0, 0, some 0⟩⟩) 0 =
      .error (.valueError m) :=
  c10_colon_token _ _ _ (by decide) (by decide) (by decide) (by decide)
    (by decide)

/-- Decomposition of a product range into nested ranges (division and
remainder split). -/
theorem range_mul_flatMap {α : Type} (n m : Nat) (hm : 0 < m)
    (f : Nat → Nat → α) :
    (List.range (n * m)).map (fun k => f (k / m) (k % m)) =
      (List.range n).flatMap (fun i => (List.range m).map (fun j => f i j)) := by
  induction n with
  | zero => simp
  | succ n ih =>
    rw [show (n + 1) * m = n * m + m by ring, List.range_add,
      List.map_append, ih, List.range_succ, List.flatMap_append]
    congr 1
    · rw [List.map_map, List.flatMap_cons, List.flatMap_nil, List.append_nil]
      apply List.map_congr_left
      intro j hj
      rw [List.mem_range] at hj
      simp only [Function.comp]
      rw [Nat.add_comm (n * m) j, Nat.add_mul_div_right _ _ hm,
        Nat.add_mul_mod_self_right, Nat.div_eq_of_lt hj,
        Nat.mod_eq_of_lt hj, Nat.zero_add]

/-- The `k`-th whole second of the day as a UTC time value. -/
def secTime0 (k : Nat) : Time :=
  ⟨((k / 3600 : Nat) : Int), (((k % 3600) / 60 : Nat) : Int),
    ((k % 60 : Nat) : Int), 0, some 0⟩

theorem intRangeAsc_zero (b : Int) :
    intRangeAsc 0 b =
      List.map (fun k : Nat => (k : Int)) (List.range b.toNat) := by
  rw [intRangeAsc]
  have h : (b - 0).toNat = b.toNat := by omega
  rw [h]
  apply List.map_congr_left
  intro k _
  simp

/-- The forward UTC time sweep enumerates exactly the 86400 whole seconds of
a day in order. -/
theorem timeRange_utc_eq :
    timeRange 0 false = (List.range 86400).map secTime0 := by
  have h2 : (List.range 86400).map secTime0 =
      (List.range 24).flatMap (fun h => (List.range 3600).map (fun r =>
        (⟨(h : Int), ((r / 60 : Nat) : Int), ((r % 60 : Nat) : Int), 0,
          some 0⟩ : Time))) := by
    rw [show (86400 : Nat) = 24 * 3600 by norm_num]
    rw [← range_mul_flatMap 24 3600 (by norm_num)
      (fun h r => (⟨(h : Int), ((r / 60 : Nat) : Int),
        ((r % 60 : Nat) : Int), 0, some 0⟩ : Time))]
    apply List.map_congr_left
    intro k _
    rw [secTime0]
    rw [Nat.mod_mod_of_dvd k (by norm_num : (60 : Nat) ∣ 3600)]
  rw [h2]
  rw [timeRange, if_neg (by simp)]
  rw [intRangeAsc_zero 24, intRangeAsc_zero 60]
  rw [show ((24 : Int).toNat) = 24 from rfl, show ((60 : Int).toNat) = 60 from rfl]
  rw [List.flatMap_map]
  apply List.flatMap_congr
  intro h _
  rw [List.flatMap_map]
  rw [show (3600 : Nat) = 60 * 60 by norm_num]
  rw [range_mul_flatMap 60 60 (by norm_num)
    (fun m s => (⟨(h : Int), (m : Int), (s : Int), 0, some 0⟩ : Time))]
  apply List.flatMap_congr
  intro m _
  rw [List.map_map]
  apply List.map_congr_left
  intro s _
  rfl

/-! ## Claim C7: the empty forward spec -/

theorem emod_eq_mod (a b : Int) : Int.emod a b = a % b := rfl

theorem isLeap_iff {y : Int} :
    isLeap y = true ↔ (y % 4 = 0 ∧ (y % 100 ≠ 0 ∨ y % 400 = 0)) := by
  rw [isLeap]
  simp only [emod_eq_mod, Bool.and_eq_true, Bool.or_eq_true, beq_iff_eq,
    bne_iff_ne]

/-- The era/year-of-era part of the civil formula advances by exactly one
Gregorian year length across the February boundary (`dd` is February's
length). -/
theorem civil_step_feb (Y : Nat) (h1 : 1 ≤ Y) (dd : Nat)
    (hdd : dd = if (Y % 4 = 0 ∧ (Y % 100 ≠ 0 ∨ Y % 400 = 0)) then 29 else 28) :
    Y / 400 * 146097 + (Y % 400 * 365 + Y % 400 / 4 - Y % 400 / 100) =
      (Y - 1) / 400 * 146097 +
        ((Y - 1) % 400 * 365 + (Y - 1) % 400 / 4 - (Y - 1) % 400 / 100) +
        336 + dd + 1 := by
  by_cases hR : (Y - 1) % 400 = 399
  · have e2 : Y % 400 = 0 := by omega
    rw [if_pos ⟨by omega, Or.inr e2⟩] at hdd
    omega
  · have e2 : Y % 400 = (Y - 1) % 400 + 1 := by omega
    by_cases hC : (Y % 4 = 0 ∧ (Y % 100 ≠ 0 ∨ Y % 400 = 0))
    · rw [if_pos hC] at hdd
      omega
    · rw [if_neg hC] at hdd
      omega

set_option maxHeartbeats 1600000 in
/-- `toDays` advances by exactly one on the calendar successor of a valid
date (`date + timedelta(days=1)` is the next epoch day). -/
theorem toDays_nextDate (d : Date) (hv : d.Valid) :
    toDays (nextDate d) = toDays d + 1 := by
  obtain ⟨y, m, dy⟩ := d
  simp only [Date.Valid] at hv
  obtain ⟨h1, h2, h3, h4, h5, h6⟩ := hv
  obtain ⟨Y, rfl⟩ : ∃ Y : Nat, y = (Y : Int) := ⟨y.toNat, by omega⟩
  rw [nextDate]
  by_cases hd : dy < daysInMonth (Y : Int) m
  · rw [if_pos hd]
    simp only [toDays]
    by_cases hm2 : m ≤ 2
    · rw [if_pos hm2, if_neg (show ¬ 2 < m.toNat by omega)]
      omega
    · rw [if_neg hm2, if_pos (show 2 < m.toNat by omega)]
      omega
  · rw [if_neg hd]
    have hdy : dy = daysInMonth (Y : Int) m := by omega
    by_cases hm12 : m < 12
    · rw [if_pos hm12]
      interval_cases m
      · rw [show daysInMonth (Y : Int) 1 = 31 from rfl] at hdy
        subst hdy
        simp only [toDays, Int.toNat_ofNat]
        norm_num
        omega
      · rw [show daysInMonth (Y : Int) 2 =
            (if isLeap (Y : Int) then (29 : Int) else 28) from rfl] at hdy
        by_cases hl : isLeap (Y : Int) = true
        · rw [if_pos hl] at hdy
          rw [isLeap_iff] at hl
          subst hdy
          have hY1 : 1 ≤ Y := by omega
          have esub : ((Y : Int) - 1).toNat = Y - 1 := by omega
          have n4 : Y % 4 = 0 := by omega
          have n100 : Y % 100 ≠ 0 ∨ Y % 400 = 0 := by
            rcases hl.2 with h | h
            · exact Or.inl (by omega)
            · exact Or.inr (by omega)
          have key := civil_step_feb Y hY1 29 (by rw [if_pos ⟨n4, n100⟩])
          clear hl n4 n100
          simp only [toDays]
          rw [if_neg (show ¬(2 + 1 : Int) ≤ 2 by decide),
            if_pos (show (2 : Int) ≤ 2 by decide)]
          rw [if_pos (show 2 < (2 + 1 : Int).toNat by decide),
            if_neg (show ¬ 2 < (2 : Int).toNat by decide)]
          rw [Int.toNat_natCast, esub, show ((2 : Int) + 1).toNat = 3 from rfl,
            show Int.toNat 2 = 2 from rfl, show Int.toNat 1 = 1 from rfl,
            show Int.toNat 29 = 29 from rfl]
          omega
        · rw [if_neg hl] at hdy
          rw [isLeap_iff] at hl
          subst hdy
          have hY1 : 1 ≤ Y := by omega
          have esub : ((Y : Int) - 1).toNat = Y - 1 := by omega
          have hnl : ¬(Y % 4 = 0 ∧ (Y % 100 ≠ 0 ∨ Y % 400 = 0)) := by omega
          have key := civil_step_feb Y hY1 28 (by rw [if_neg hnl])
          clear hl hnl
          simp only [toDays]
          rw [if_neg (show ¬(2 + 1 : Int) ≤ 2 by decide),
            if_pos (show (2 : Int) ≤ 2 by decide)]
          rw [if_pos (show 2 < (2 + 1 : Int).toNat by decide),
            if_neg (show ¬ 2 < (2 : Int).toNat by decide)]
          rw [Int.toNat_natCast, esub, show ((2 : Int) + 1).toNat = 3 from rfl,
            show Int.toNat 2 = 2 from rfl, show Int.toNat 1 = 1 from rfl,
            show Int.toNat 28 = 28 from rfl]
          omega
      · rw [show daysInMonth (Y : Int) 3 = 31 from rfl] at hdy
        subst hdy
        simp only [toDays, Int.toNat_ofNat]
        norm_num
        omega
      · rw [show daysInMonth (Y : Int) 4 = 30 from rfl] at hdy
        subst hdy
        simp only [toDays, Int.toNat_ofNat]
        norm_num
        omega
      · rw [show daysInMonth (Y : Int) 5 = 31 from rfl] at hdy
        subst hdy
        simp only [toDays, Int.toNat_ofNat]
        norm_num
        omega
      · rw [show daysInMonth (Y : Int) 6 = 30 from rfl] at hdy
        subst hdy
        simp only [toDays, Int.toNat_ofNat]
        norm_num
        omega
      · rw [show daysInMonth (Y : Int) 7 = 31 from rfl] at hdy
        subst hdy
        simp only [toDays, Int.toNat_ofNat]
        norm_num
        omega
      · rw [show daysInMonth (Y : Int) 8 = 31 from rfl] at hdy
        subst hdy
        simp only [toDays, Int.toNat_ofNat]
        norm_num
        omega
      · rw [show daysInMonth (Y : Int) 9 = 30 from rfl] at hdy
        subst hdy
        simp only [toDays, Int.toNat_ofNat]
        norm_num
        omega
      · rw [show daysInMonth (Y : Int) 10 = 31 from rfl] at hdy
        subst hdy
        simp only [toDays, Int.toNat_ofNat]
        norm_num
        omega
      · rw [show daysInMonth (Y : Int) 11 = 30 from rfl] at hdy
        subst hdy
        simp only [toDays, Int.toNat_ofNat]
        norm_num
        omega
    · rw [if_neg hm12]
      have hm' : m = 12 := by omega
      subst hm'
      rw [show daysInMonth (Y : Int) 12 = 31 from rfl] at hdy
      subst hdy
      simp only [toDays, Int.toNat_ofNat]
      norm_num
      omega

theorem nextDate_year_le_succ (d : Date) : (nextDate d).year ≤ d.year + 1 := by
  rw [nextDate]
  split_ifs <;> dsimp only <;> omega

/-- Two-step head decomposition of the forward `date_range`. -/
theorem dateRange_cons2_fwd {s e : Date} (h1 : dateLtB e s = false)
    (h2 : dateLtB s e = true) (h3 : dateLtB (nextDate s) e = true) :
    ∃ n, dateRange s e =
      s :: nextDate s :: dateRangeFwd n (nextDate (nextDate s)) e := by
  refine ⟨dateRangeFuel s e - 2, ?_⟩
  rw [dateRange, h1, if_neg (by simp)]
  have hf : dateRangeFuel s e = ((dateRangeFuel s e - 2) + 1) + 1 := by
    rw [dateRangeFuel]; omega
  conv_lhs => rw [hf]
  rw [dateRangeFwd_cons h2, dateRangeFwd_cons h3]

/-- A prefix-skipping first-match over a mapped index range: everything below
index `K` fails and `K` hits. -/
theorem firstMatch_range_map {π α : Type} (ev : π → α → Except PyErr Bool)
    (ps : List π) (g : Nat → α) {n K : Nat} (hK : K < n)
    (hfail : ∀ j, j < K → allPredicates ev ps (g j) = .ok false)
    (hhit : allPredicates ev ps (g K) = .ok true) :
    firstMatch ev ps ((List.range n).map g) = .ok (some (g K)) := by
  rw [show n = K + (n - K) from by omega, List.range_add, List.map_append]
  rw [firstMatch_append_skip ev ps _ (fun x hx => by
    obtain ⟨j, hj, rfl⟩ := List.mem_map.mp hx
    exact hfail j (List.mem_range.mp hj))]
  rw [show n - K = (n - K - 1) + 1 from by omega]
  rw [List.range_succ_eq_map, List.map_cons, List.map_cons, Nat.add_zero]
  exact firstMatch_cons_true ev ps _ hhit

/-- If the head sublist already contains a match, appending more candidates
does not change the result. -/
theorem firstMatch_append_found (ev : π → α → Except PyErr Bool) (ps : List π)
    {l1 : List α} (l2 : List α) {r : α}
    (h : firstMatch ev ps l1 = .ok (some r)) :
    firstMatch ev ps (l1 ++ l2) = .ok (some r) := by
  induction l1 with
  | nil => cases h
  | cons v vs ih =>
    rw [firstMatch] at h
    rw [List.cons_append, firstMatch]
    rcases hb : allPredicates ev ps v with e | b
    · rw [hb, error_bind] at h
      cases h
    · rw [hb, ok_bind] at h
      rw [ok_bind]
      cases b with
      | true => exact h
      | false => exact ih h

/-- Reflexivity of Python time equality for aware times. -/
theorem timeEq_refl_aware {t : Time} {z : Int} (h : t.tz = some z) :
    timeEq t t = true := by
  obtain ⟨th, tm, ts, tu, tzv⟩ := t
  dsimp only at h
  subst h
  exact beq_self_eq_true _

theorem any_of_mem {α : Type} {p : α → Bool} {l : List α} {x : α}
    (hx : x ∈ l) (hp : p x = true) : l.any p = true :=
  List.any_eq_true.mpr ⟨x, hx, hp⟩

/-- Value of the C7 predicate conjunction on a candidate whose date and time
are drawn from the materialized domains: only the boundary predicate can
discriminate. -/
theorem allPreds_c7 {dates : List Date} {times : List Time} {S v : DateTime}
    (hd : v.date ∈ dates) (ht : v.time ∈ times) (htz : v.time.tz = some 0)
    (hS : isAware S = true) :
    allPredicates evalDateTimePred
      [.dateMem dates, .timeMem times, .geStart S] v =
      .ok (decide (absUs S ≤ absUs v)) := by
  have hd' : dates.any (fun d => v.date == d) = true :=
    any_of_mem hd (beq_self_eq_true _)
  have ht' : times.any (fun t => timeEq v.time t) = true :=
    any_of_mem ht (timeEq_refl_aware htz)
  have hva : isAware v = true := by rw [isAware, htz]; rfl
  have hge : evalDateTimePred (.geStart S) v =
      .ok (decide (absUs S ≤ absUs v)) := by
    rw [show evalDateTimePred (.geStart S) v =
        (dtLeE S v >>= fun b => .ok b) from rfl]
    rw [dtLeE, hS, hva]
    rw [show (true != true) = false from rfl, if_neg (by simp), ok_bind]
  rw [allPredicates_cons,
    show evalDateTimePred (DateTimePred.dateMem dates) v =
      .ok (dates.any fun d => v.date == d) from rfl,
    hd', ok_bind, if_pos rfl, allPredicates_cons,
    show evalDateTimePred (DateTimePred.timeMem times) v =
      .ok (times.any fun t => timeEq v.time t) from rfl,
    ht', ok_bind, if_pos rfl, allPredicates_cons, hge, ok_bind]
  cases hdec : decide (absUs S ≤ absUs v)
  · rw [if_neg (by simp)]
  · rw [if_pos rfl, allPredicates_nil]

theorem absUs_secTime0 (d : Date) (j : Nat) :
    absUs ⟨d, secTime0 j⟩ = toDays d * 86400000000 + (j : Int) * 1000000 := by
  rw [absUs, secTime0]
  dsimp only
  rw [secUs]
  dsimp only [Option.getD]
  omega

theorem absUs_start (d : Date) (hh mm ss mu : Int) :
    absUs ⟨d, ⟨hh, mm, ss, mu, some 0⟩⟩ =
      toDays d * 86400000000 + ((hh * 60 + mm) * 60 + ss) * 1000000 + mu := by
  rw [absUs, secUs]
  dsimp only [Option.getD]
  ring

/-- The result the spec promises for an empty forward spec from an aware
start: the start instant itself when it is whole-second aligned, otherwise
the next representable whole second.  (This definition renders the spec's
wording for claim C7 and is compared against the behaviour of `parse`.) -/
def specNextSecond (dt : DateTime) : DateTime :=
  if dt.time.micro = 0 then dt
  else if dt.time.second < 59 then
    ⟨dt.date, ⟨dt.time.hour, dt.time.minute, dt.time.second + 1, 0, dt.time.tz⟩⟩
  else if dt.time.minute < 59 then
    ⟨dt.date, ⟨dt.time.hour, dt.time.minute + 1, 0, 0, dt.time.tz⟩⟩
  else if dt.time.hour < 23 then
    ⟨dt.date, ⟨dt.time.hour + 1, 0, 0, 0, dt.time.tz⟩⟩
  else ⟨nextDate dt.date, ⟨0, 0, 0, 0, dt.time.tz⟩⟩

/-- First match of the composite search when the hit falls inside the first
date's block of the cross product. -/
theorem c7_firstMatch_block0 {dates : List Date} {d0 : Date}
    {rest : List Date} (hdates : dates = d0 :: rest) (S : DateTime)
    (hSaw : isAware S = true) {K : Nat} (hK : K < 86400)
    (hlow : ∀ j : Nat, j < K → absUs ⟨d0, secTime0 j⟩ < absUs S)
    (hhi : absUs S ≤ absUs ⟨d0, secTime0 K⟩) :
    firstMatch evalDateTimePred
      [.dateMem dates, .timeMem ((List.range 86400).map secTime0),
        .geStart S]
      (dates.flatMap fun d =>
        ((List.range 86400).map secTime0).map fun t => ⟨d, t⟩) =
      .ok (some ⟨d0, secTime0 K⟩) := by
  subst hdates
  rw [List.flatMap_cons, List.map_map]
  refine firstMatch_append_found _ _ _ ?_
  refine firstMatch_range_map evalDateTimePred _
    ((fun t => (⟨d0, t⟩ : DateTime)) ∘ secTime0) hK ?_ ?_
  · intro j hj
    have htm : secTime0 j ∈ (List.range 86400).map secTime0 :=
      List.mem_map.mpr ⟨j, List.mem_range.mpr (by omega), rfl⟩
    have hm := @allPreds_c7 (d0 :: rest) ((List.range 86400).map secTime0)
      S ⟨d0, secTime0 j⟩ (List.mem_cons_self _ _) htm rfl hSaw
    rw [show ((fun t => (⟨d0, t⟩ : DateTime)) ∘ secTime0) j =
      ⟨d0, secTime0 j⟩ from rfl, hm,
      decide_eq_false (not_le.mpr (hlow j hj))]
  · have htm : secTime0 K ∈ (List.range 86400).map secTime0 :=
      List.mem_map.mpr ⟨K, List.mem_range.mpr hK, rfl⟩
    have hm := @allPreds_c7 (d0 :: rest) ((List.range 86400).map secTime0)
      S ⟨d0, secTime0 K⟩ (List.mem_cons_self _ _) htm rfl hSaw
    rw [show ((fun t => (⟨d0, t⟩ : DateTime)) ∘ secTime0) K =
      ⟨d0, secTime0 K⟩ from rfl, hm, decide_eq_true hhi]

/-- First match of the composite search when the whole first date block
fails and the hit is the midnight of the second date. -/
theorem c7_firstMatch_block1 {dates : List Date} {d0 d1 : Date}
    {rest : List Date} (hdates : dates = d0 :: d1 :: rest) (S : DateTime)
    (hSaw : isAware S = true)
    (hfail0 : ∀ j : Nat, j < 86400 → absUs ⟨d0, secTime0 j⟩ < absUs S)
    (hhi : absUs S ≤ absUs ⟨d1, secTime0 0⟩) :
    firstMatch evalDateTimePred
      [.dateMem dates, .timeMem ((List.range 86400).map secTime0),
        .geStart S]
      (dates.flatMap fun d =>
        ((List.range 86400).map secTime0).map fun t => ⟨d, t⟩) =
      .ok (some ⟨d1, secTime0 0⟩) := by
  subst hdates
  rw [List.flatMap_cons, List.flatMap_cons, List.map_map, List.map_map]
  have hskip : ∀ x ∈ (List.range 86400).map
      ((fun t => (⟨d0, t⟩ : DateTime)) ∘ secTime0),
      allPredicates evalDateTimePred
        [.dateMem (d0 :: d1 :: rest),
          .timeMem ((List.range 86400).map secTime0), .geStart S] x =
        .ok false := by
    intro x hx
    obtain ⟨j, hj, rfl⟩ := List.mem_map.mp hx
    have htm : secTime0 j ∈ (List.range 86400).map secTime0 :=
      List.mem_map.mpr ⟨j, hj, rfl⟩
    have hm := @allPreds_c7 (d0 :: d1 :: rest)
      ((List.range 86400).map secTime0)
      S ⟨d0, secTime0 j⟩ (List.mem_cons_self _ _) htm rfl hSaw
    rw [show ((fun t => (⟨d0, t⟩ : DateTime)) ∘ secTime0) j =
      ⟨d0, secTime0 j⟩ from rfl, hm,
      decide_eq_false (not_le.mpr (hfail0 j (List.mem_range.mp hj)))]
  rw [firstMatch_append_skip _ _ _ hskip]
  refine firstMatch_append_found _ _ _ ?_
  refine firstMatch_range_map evalDateTimePred _
    ((fun t => (⟨d1, t⟩ : DateTime)) ∘ secTime0) (show 0 < 86400 by omega)
    (fun j hj => absurd hj (by omega)) ?_
  have htm : secTime0 0 ∈ (List.range 86400).map secTime0 :=
    List.mem_map.mpr ⟨0, List.mem_range.mpr (by omega), rfl⟩
  have hm := @allPreds_c7 (d0 :: d1 :: rest) ((List.range 86400).map secTime0)
    S ⟨d1, secTime0 0⟩ (List.mem_cons_of_mem _ (List.mem_cons_self _ _))
    htm rfl hSaw
  rw [show ((fun t => (⟨d1, t⟩ : DateTime)) ∘ secTime0) 0 =
    ⟨d1, secTime0 0⟩ from rfl, hm, decide_eq_true hhi]

theorem dates_window_ne_nil2 {y mo dy d' : Int} :
    dateRange ⟨y, mo, dy⟩ (nextDate ⟨y + 10, mo, d'⟩) ≠ [] := by
  have hye : (y + 10 : Int) ≤ (nextDate ⟨y + 10, mo, d'⟩).year :=
    nextDate_year_ge _
  refine dateRange_ne_nil_fwd (dateLtB_false_of_year_lt ?_)
    (dateLtB_of_year_lt ?_) <;>
  · show y < (nextDate ⟨y + 10, mo, d'⟩).year
    omega

/-- **C7**: an empty spec with forward direction and an explicit aware UTC
start returns the start instant itself when its microsecond field is zero,
and otherwise the next representable whole second after it. -/
theorem c7_empty_spec (now : DateTime) (y mo dy hh mm ss mu : Int)
    (hv : (Date.mk y mo dy).Valid) (hy : y ≤ 9989)
    (hhb : 0 ≤ hh ∧ hh < 24) (hmb : 0 ≤ mm ∧ mm < 60)
    (hsb : 0 ≤ ss ∧ ss < 60) (hub : 0 ≤ mu ∧ mu < 1000000) :
    parse now [] none false (some ⟨⟨y, mo, dy⟩, ⟨hh, mm, ss, mu, some 0⟩⟩) 0 =
      .ok (specNextSecond ⟨⟨y, mo, dy⟩, ⟨hh, mm, ss, mu, some 0⟩⟩) := by
  rw [parse, setup_fwd_eq now _ 0 hv hy, ok_bind]
  rw [show classify (([] : List String).map String.toList) false ⟨y, mo, dy⟩ 0 =
      .ok ⟨[], [], [], [], [], [], [], [], [], none⟩ from rfl, ok_bind]
  rw [domainStage]
  dsimp only
  simp only [Bool.false_eq_true, if_false, List.isEmpty_nil, Bool.not_true,
    Bool.or_self, Bool.false_or, Bool.or_false, if_true, List.nil_append]
  rw [predicateList_nil_preds _ (intRangeAsc_ne_nil (by omega)), ok_bind]
  rw [predicateList_nil_preds _ (intRangeAsc_ne_nil (by omega)), ok_bind]
  rw [predicateList_nil_preds _ (intRangeAsc_ne_nil (by omega)), ok_bind]
  rw [predicateList_nil_preds _ dates_window_ne_nil2, ok_bind]
  rw [predicateList_nil_preds _ (intRangeAsc_ne_nil (by omega)), ok_bind]
  rw [predicateList_nil_preds _ (intRangeAsc_ne_nil (by omega)), ok_bind]
  rw [ok_bind]
  rw [predicateList_nil_preds _ (timeRange_ne_nil 0 false), ok_bind]
  rw [ok_bind]
  dsimp only
  rw [finalStage, dtPredsOf]
  dsimp only
  simp only [Bool.false_eq_true, if_false, List.nil_append, List.cons_append]
  dsimp only [genOf]
  rw [timeRange_utc_eq]
  have hlt : dateLtB (⟨y, mo, dy⟩ : Date)
      (nextDate ⟨y + 10, mo, if mo = 2 ∧ dy = 29 then 28 else dy⟩) = true := by
    refine dateLtB_of_year_lt ?_
    have hye : (y + 10 : Int) ≤
        (nextDate ⟨y + 10, mo, if mo = 2 ∧ dy = 29 then 28 else dy⟩).year :=
      nextDate_year_ge _
    show y < (nextDate ⟨y + 10, mo, if mo = 2 ∧ dy = 29 then 28 else dy⟩).year
    omega
  have hgt : dateLtB
      (nextDate ⟨y + 10, mo, if mo = 2 ∧ dy = 29 then 28 else dy⟩)
      (⟨y, mo, dy⟩ : Date) = false := by
    refine dateLtB_false_of_year_lt ?_
    have hye : (y + 10 : Int) ≤
        (nextDate ⟨y + 10, mo, if mo = 2 ∧ dy = 29 then 28 else dy⟩).year :=
      nextDate_year_ge _
    show y < (nextDate ⟨y + 10, mo, if mo = 2 ∧ dy = 29 then 28 else dy⟩).year
    omega
  by_cases hmu : mu = 0
  · subst hmu
    obtain ⟨K, hK1, hK2⟩ : ∃ K : Nat,
        (K : Int) = hh * 3600 + mm * 60 + ss ∧ K < 86400 :=
      ⟨(hh * 3600 + mm * 60 + ss).toNat, by omega, by omega⟩
    obtain ⟨n, hdates⟩ := dateRange_cons_fwd hgt hlt
    have hlow : ∀ j : Nat, j < K →
        absUs ⟨⟨y, mo, dy⟩, secTime0 j⟩ <
          absUs ⟨⟨y, mo, dy⟩, ⟨hh, mm, ss, 0, some 0⟩⟩ := by
      intro j hj
      rw [absUs_secTime0, absUs_start]
      omega
    have hhi : absUs ⟨⟨y, mo, dy⟩, ⟨hh, mm, ss, 0, some 0⟩⟩ ≤
        absUs ⟨⟨y, mo, dy⟩, secTime0 K⟩ := by
      rw [absUs_secTime0, absUs_start]
      omega
    rw [c7_firstMatch_block0 hdates
      ⟨⟨y, mo, dy⟩, ⟨hh, mm, ss, 0, some 0⟩⟩ rfl hK2 hlow hhi, ok_bind]
    dsimp only
    rw [if_pos (show isAware ⟨⟨y, mo, dy⟩, secTime0 K⟩ = true from rfl)]
    refine congrArg Except.ok ?_
    rw [specNextSecond]
    dsimp only
    rw [if_pos rfl]
    have e1 : ((K / 3600 : Nat) : Int) = hh := by omega
    have e2 : (((K % 3600) / 60 : Nat) : Int) = mm := by omega
    have e3 : ((K % 60 : Nat) : Int) = ss := by omega
    rw [secTime0, e1, e2, e3]
  · by_cases hroll : hh = 23 ∧ mm = 59 ∧ ss = 59
    · obtain ⟨rfl, rfl, rfl⟩ := hroll
      have hlt2 : dateLtB (nextDate ⟨y, mo, dy⟩)
          (nextDate ⟨y + 10, mo, if mo = 2 ∧ dy = 29 then 28 else dy⟩) =
          true := by
        refine dateLtB_of_year_lt ?_
        have hye : (y + 10 : Int) ≤
            (nextDate ⟨y + 10, mo,
              if mo = 2 ∧ dy = 29 then 28 else dy⟩).year :=
          nextDate_year_ge _
        have t1 : (nextDate (⟨y, mo, dy⟩ : Date)).year ≤ y + 1 :=
          nextDate_year_le_succ _
        omega
      obtain ⟨n, hdates⟩ := dateRange_cons2_fwd hgt hlt hlt2
      have hfail0 : ∀ j : Nat, j < 86400 →
          absUs ⟨⟨y, mo, dy⟩, secTime0 j⟩ <
            absUs ⟨⟨y, mo, dy⟩, ⟨23, 59, 59, mu, some 0⟩⟩ := by
        intro j hj
        rw [absUs_secTime0, absUs_start]
        omega
      have hhi : absUs ⟨⟨y, mo, dy⟩, ⟨23, 59, 59, mu, some 0⟩⟩ ≤
          absUs ⟨nextDate ⟨y, mo, dy⟩, secTime0 0⟩ := by
        rw [absUs_secTime0, absUs_start]
        have htd := toDays_nextDate ⟨y, mo, dy⟩ hv
        omega
      rw [c7_firstMatch_block1 hdates
        ⟨⟨y, mo, dy⟩, ⟨23, 59, 59, mu, some 0⟩⟩ rfl hfail0 hhi, ok_bind]
      dsimp only
      rw [if_pos
        (show isAware ⟨nextDate ⟨y, mo, dy⟩, secTime0 0⟩ = true from rfl)]
      refine congrArg Except.ok ?_
      rw [specNextSecond]
      dsimp only
      rw [if_neg hmu, if_neg (show ¬(59 : Int) < 59 by decide),
        if_neg (show ¬(59 : Int) < 59 by decide),
        if_neg (show ¬(23 : Int) < 23 by decide)]
      rfl
    · obtain ⟨K, hK1, hK2⟩ : ∃ K : Nat,
          (K : Int) = hh * 3600 + mm * 60 + ss + 1 ∧ K < 86400 :=
        ⟨(hh * 3600 + mm * 60 + ss + 1).toNat, by omega, by omega⟩
      obtain ⟨n, hdates⟩ := dateRange_cons_fwd hgt hlt
      have hlow : ∀ j : Nat, j < K →
          absUs ⟨⟨y, mo, dy⟩, secTime0 j⟩ <
            absUs ⟨⟨y, mo, dy⟩, ⟨hh, mm, ss, mu, some 0⟩⟩ := by
        intro j hj
        rw [absUs_secTime0, absUs_start]
        omega
      have hhi : absUs ⟨⟨y, mo, dy⟩, ⟨hh, mm, ss, mu, some 0⟩⟩ ≤
          absUs ⟨⟨y, mo, dy⟩, secTime0 K⟩ := by
        rw [absUs_secTime0, absUs_start]
        omega
      rw [c7_firstMatch_block0 hdates
        ⟨⟨y, mo, dy⟩, ⟨hh, mm, ss, mu, some 0⟩⟩ rfl hK2 hlow hhi, ok_bind]
      dsimp only
      rw [if_pos (show isAware ⟨⟨y, mo, dy⟩, secTime0 K⟩ = true from rfl)]
      refine congrArg Except.ok ?_
      rw [specNextSecond]
      dsimp only
      rw [if_neg hmu]
      by_cases hss : ss < 59
      · rw [if_pos hss]
        have e1 : ((K / 3600 : Nat) : Int) = hh := by omega
        have e2 : (((K % 3600) / 60 : Nat) : Int) = mm := by omega
        have e3 : ((K % 60 : Nat) : Int) = ss + 1 := by omega
        rw [secTime0, e1, e2, e3]
      · rw [if_neg hss]
        by_cases hmm59 : mm < 59
        · rw [if_pos hmm59]
          have e1 : ((K / 3600 : Nat) : Int) = hh := by omega
          have e2 : (((K % 3600) / 60 : Nat) : Int) = mm + 1 := by omega
          have e3 : ((K % 60 : Nat) : Int) = 0 := by omega
          rw [secTime0, e1, e2, e3]
        · rw [if_neg hmm59]
          have hhh : hh < 23 := by omega
          rw [if_pos hhh]
          have e1 : ((K / 3600 : Nat) : Int) = hh + 1 := by omega
          have e2 : (((K % 3600) / 60 : Nat) : Int) = 0 := by omega
          have e3 : ((K % 60 : Nat) : Int) = 0 := by omega
          rw [secTime0, e1, e2, e3]

/-- Witness for C7: a sub-second start advances to the next whole second. -/
theorem c7_witness :
    parse ⟨⟨2024, 1, 1⟩, ⟨0, 0, 0, 0, some 0⟩⟩ [] none false
      (some ⟨⟨2024, 5, 20⟩, ⟨1, 2, 3, 4, some 0⟩⟩) 0 =
      .ok ⟨⟨2024, 5, 20⟩, ⟨1, 2, 4, 0, some 0⟩⟩ :=
  (c7_empty_spec _ 2024 5 20 1 2 3 4 (by decide) (by decide) (by decide)
    (by decide) (by decide) (by decide)).trans
    (congrArg Except.ok (by decide))
